import Mathlib

/-!
Shallow embedding of the score engine and session aggregator of
`src/app/page.tsx` (a 4-player Phỏm score-keeping app), with proofs of the
specification's claims about them.

Modelling conventions.  JavaScript numbers reachable inside the engine are
integers or `NaN` (the latter arises from arithmetic on a missing object
key), so they are modelled as `Option Int` with `none` in the role of
`NaN`; `jsAdd` is JS `+` on that type.  JavaScript objects used as
string-keyed maps (`points`, `totals`, the frequency counters) are
modelled as association lists kept in insertion order, exactly as JS
object keys are ordered; `jsModify` captures `obj[k] = f(obj[k])`, which
updates in place when the key exists and appends a fresh key otherwise.
JS `Set` iteration order is insertion order, modelled by `setDedup`.
-/

namespace Phom

/-- JS numbers reachable in the engine: an integer, or `none` for `NaN`. -/
abbrev JsNum := Option Int

/-- JS `+` on engine numbers: `NaN` absorbs. -/
def jsAdd : JsNum → JsNum → JsNum
  | some a, some b => some (a + b)
  | _, _ => none

/-- Source: `type Player = { id, name }` (`src/app/page.tsx`). -/
structure Player where
  id : String
  name : String
deriving DecidableEq

/-- Source: `type Transfer = { id, from, to, points }`.  The `from` field is
renamed `from_` because `from` is a Lean keyword. -/
structure Transfer where
  id : String
  from_ : String
  to_ : String
  points : Int
deriving DecidableEq

/-- Source: `placements: Record<PlacementKey, string>` with keys
`first | second | third | fourth`; the empty string means "unassigned". -/
structure Placements where
  first : String
  second : String
  third : String
  fourth : String
deriving DecidableEq

/-- Source: `type Game = { id, u, placements, anChot, chay }`.  `u` is the
self-win flag, `anChot` the manual transfers, `chay` the burn entries. -/
structure Game where
  id : String
  u : Bool
  placements : Placements
  anChot : List Transfer
  chay : List Transfer
deriving DecidableEq

/-- The result record of `computeGamePoints`: `{ points, total, warnings }`. -/
structure ScoreResult where
  points : List (String × JsNum)
  total : JsNum
  warnings : List String
deriving DecidableEq

/-- The result record of `getTopStat`: `{ names, count }`. -/
structure TopStat where
  names : List String
  count : Nat
deriving DecidableEq

/-- Insertion-order deduplication, as performed by `new Set(list)` followed
by iteration: the first occurrence of each element is kept, in order. -/
def setDedup : List String → List String
  | [] => []
  | x :: xs => x :: (setDedup xs).filter fun y => decide (y ≠ x)

/-- JS map update `m[k] = upd(m[k])`: if the key is present its value is
updated in place (object key order is preserved); otherwise the key is
appended with value `miss` (the value JS computes from `undefined`). -/
def jsModify {α : Type} (m : List (String × α)) (k : String) (upd : α → α)
    (miss : α) : List (String × α) :=
  if m.any fun p => decide (p.1 = k) then
    m.map fun p => if p.1 = k then (p.1, upd p.2) else p
  else m ++ [(k, miss)]

/-- JS `points[k] -= d` (missing key: `undefined - d = NaN`). -/
def updSub (m : List (String × JsNum)) (k : String) (d : Int) :
    List (String × JsNum) :=
  jsModify m k (fun v => v.map fun x => x - d) none

/-- JS `points[k] += d` (missing key: `undefined + d = NaN`). -/
def updAdd (m : List (String × JsNum)) (k : String) (d : Int) :
    List (String × JsNum) :=
  jsModify m k (fun v => v.map fun x => x + d) none

/-- JS `points[k] = v` (plain assignment). -/
def setPts (m : List (String × JsNum)) (k : String) (v : Int) :
    List (String × JsNum) :=
  jsModify m k (fun _ => some v) (some v)

/-- JS `totals[k] += d` where `d` itself is an engine number. -/
def addJs (m : List (String × JsNum)) (k : String) (d : JsNum) :
    List (String × JsNum) :=
  jsModify m k (fun v => jsAdd v d) none

/-- JS property read `m[k]`: `none` when the key is absent (`undefined`). -/
def jsGet {α : Type} (m : List (String × α)) (k : String) : Option α :=
  (m.find? fun p => decide (p.1 = k)).map Prod.snd

/-- JS `m[k] ?? 0`: `0` only when the key is absent; a present `NaN` stays. -/
def getOrZero (m : List (String × JsNum)) (k : String) : JsNum :=
  (jsGet m k).getD (some 0)

/-- JS `Object.values(m).reduce((sum, v) => sum + v, 0)`. -/
def sumVals (m : List (String × JsNum)) : JsNum :=
  m.foldl (fun acc p => jsAdd acc p.2) (some 0)

/-- Source: `Object.fromEntries(players.map(p => [p.id, 0]))` — one entry
per distinct player id, first occurrence order, all values `0`. -/
def initPoints (players : List Player) : List (String × JsNum) :=
  (setDedup (players.map Player.id)).map fun i => (i, some 0)

/-- Source: the inner `applyTransfer` closure of `computeGamePoints`:
rejects a transfer with an empty endpoint or `from === to` with one warning,
otherwise moves `points` from `from` to `to`.  The state is the pair of the
`points` map and the `warnings` list. -/
def applyTransfer (st : List (String × JsNum) × List String) (t : Transfer) :
    List (String × JsNum) × List String :=
  if t.from_ = "" ∨ t.to_ = "" ∨ t.from_ = t.to_ then
    (st.1, st.2 ++ ["Chuyển điểm chưa hợp lệ"])
  else
    (updAdd (updSub st.1 t.from_ t.points) t.to_ t.points, st.2)

/-- Source: `new Set(game.chay.map(t => t.from).filter(Boolean))` — the
distinct non-empty burn `from` ids, in insertion order. -/
def chayFroms (game : Game) : List String :=
  setDedup ((game.chay.map Transfer.from_).filter fun s => decide (s ≠ ""))

/-- The mode-specific part of `computeGamePoints` (everything before the
`game.anChot.forEach(applyTransfer)` line): the `points` map and the
warnings produced by self-win / burn / ranking scoring. -/
def modePoints (game : Game) (players : List Player) :
    List (String × JsNum) × List String :=
  let pts := initPoints players
  if game.u then
    let winner := game.placements.first
    if winner = "" then (pts, ["Chưa chọn người Ù"])
    else
      (players.foldl
        (fun m p => setPts m p.id (if p.id = winner then 15 else -5)) pts, [])
  else
    let winner := game.placements.first
    let chaySet := chayFroms game
    if chaySet.isEmpty then
      -- `hasChay` is false: ranking mode
      let picks := [game.placements.first, game.placements.second,
                    game.placements.third, game.placements.fourth]
      let unique := setDedup (picks.filter fun s => decide (s ≠ ""))
      if unique.length ≠ 4 then (pts, ["Chưa đủ xếp hạng 1-4"])
      else
        (updSub (updSub (updSub (updAdd pts game.placements.first 6)
            game.placements.second 1) game.placements.third 2)
            game.placements.fourth 3, [])
    else
      if winner = "" then (pts, ["Cần chọn người thắng để tính cháy"])
      else if winner ∈ chaySet then (pts, ["Người thắng không thể bị cháy"])
      else
        let pts1 := chaySet.foldl
          (fun m pid =>
            if pid = winner then m else updAdd (updSub m pid 4) winner 4) pts
        let second := game.placements.second
        let third := game.placements.third
        let pts2 :=
          if second ≠ "" ∧ second ∉ chaySet ∧ second ≠ winner then
            updAdd (updSub pts1 second 1) winner 1
          else pts1
        let pts3 :=
          if third ≠ "" ∧ third ∉ chaySet ∧ third ≠ winner ∧ third ≠ second then
            updAdd (updSub pts2 third 2) winner 2
          else pts2
        let nonChay := (players.map Player.id).filter fun i =>
          decide (i ∉ chaySet)
        let w1 :=
          if 2 ≤ nonChay.length ∧
              (second = "" ∨ second = winner ∨ second ∈ chaySet) then
            ["Thiếu người về nhì"]
          else []
        let w2 :=
          if 3 ≤ nonChay.length ∧
              (third = "" ∨ third = winner ∨ third = second ∨
                third ∈ chaySet) then
            ["Thiếu người về ba"]
          else []
        (pts3, w1 ++ w2)

/-- Source: `computeGamePoints(game, players)` — the mode-specific scoring
followed by the manual transfers in list order, then the total. -/
def computeGamePoints (game : Game) (players : List Player) : ScoreResult :=
  let st := game.anChot.foldl applyTransfer (modePoints game players)
  { points := st.1, total := sumVals st.1, warnings := st.2 }

/-- Source: the `sessionTotals` memo — per-player running totals, adding
`summary.points[player.id] ?? 0` for every game summary. -/
def sessionTotals (games : List Game) (players : List Player) :
    List (String × JsNum) :=
  (games.map fun g => computeGamePoints g players).foldl
    (fun totals summary =>
      players.foldl
        (fun t p => addJs t p.id (getOrZero summary.points p.id)) totals)
    (initPoints players)

/-- Source: `sessionBalance` — the sum of all session totals. -/
def sessionBalance (games : List Game) (players : List Player) : JsNum :=
  sumVals (sessionTotals games players)

/-- Source: `Object.fromEntries(players.map(p => [p.id, 0]))` for the
frequency counters of `funStats`. -/
def initCounts (players : List Player) : List (String × Nat) :=
  (setDedup (players.map Player.id)).map fun i => (i, 0)

/-- Source: `counts[from] = (counts[from] ?? 0) + 1`. -/
def bumpCount (m : List (String × Nat)) (k : String) : List (String × Nat) :=
  jsModify m k (fun n => n + 1) 1

/-- Source: the counting loops of `funStats` — across all games, count how
often each id appears as the (truthy) `from` of a `sel`-entry. -/
def tallyFrom (games : List Game) (players : List Player)
    (sel : Game → List Transfer) : List (String × Nat) :=
  games.foldl
    (fun m g =>
      (sel g).foldl
        (fun m t => if t.from_ = "" then m else bumpCount m t.from_) m)
    (initCounts players)

/-- Source: `getTopStat(players, counts)` — the maximum count (at least 0),
the sentinel `"Chưa có"` at count 0, otherwise the names of all ids tied
for the maximum (ids without a player record, or with a falsy name, are
dropped by the `.filter(Boolean)`). -/
def getTopStat (players : List Player) (counts : List (String × Nat)) :
    TopStat :=
  let top := (counts.map Prod.snd).foldl Nat.max 0
  if top = 0 then { names := ["Chưa có"], count := 0 }
  else
    let ids := (counts.filter fun p => decide (p.2 = top)).map Prod.fst
    let names := (ids.filterMap fun i =>
        (players.find? fun p => decide (p.id = i)).map Player.name).filter
        fun n => decide (n ≠ "")
    { names := names, count := top }

/-- Source: `funStats.mostChay`. -/
def mostChay (games : List Game) (players : List Player) : TopStat :=
  getTopStat players (tallyFrom games players Game.chay)

/-- Source: `funStats.mostAnChot`. -/
def mostAnChot (games : List Game) (players : List Player) : TopStat :=
  getTopStat players (tallyFrom games players Game.anChot)

/-- A well-formed 4-player seat list: exactly four players with distinct,
non-empty ids (§3: "Exactly 4 players per session", identity is the id). -/
def validIds (players : List Player) : Prop :=
  players.length = 4 ∧ (players.map Player.id).Nodup ∧
    ∀ p ∈ players, p.id ≠ ""

/-- A ranking-slot or transfer-endpoint value that respects the §3 data
model: a valid player id, or empty. -/
def slotOk (players : List Player) (s : String) : Prop :=
  s = "" ∨ s ∈ players.map Player.id

/-- All transfer endpoints (burn and manual) of a round are valid player
ids or empty. -/
def endpointsOk (players : List Player) (game : Game) : Prop :=
  (∀ t ∈ game.chay, slotOk players t.from_ ∧ slotOk players t.to_) ∧
  (∀ t ∈ game.anChot, slotOk players t.from_ ∧ slotOk players t.to_)

/-- All four ranking slots hold valid player ids or are empty. -/
def placementsOk (players : List Player) (game : Game) : Prop :=
  slotOk players game.placements.first ∧
  slotOk players game.placements.second ∧
  slotOk players game.placements.third ∧
  slotOk players game.placements.fourth

/-- The §3 data-model invariants of a round: well-formed seats, valid slot
and endpoint references, slot exclusivity, burns only without self-win, the
winner never burned, burn destinations tracking slot `first`, and no
transfer from a player to themselves. -/
def sectionThreeValid (game : Game) (players : List Player) : Prop :=
  validIds players ∧
  placementsOk players game ∧
  ([game.placements.first, game.placements.second, game.placements.third,
      game.placements.fourth].filter fun s => decide (s ≠ "")).Nodup ∧
  (game.u = true → game.chay = []) ∧
  (∀ t ∈ game.chay, t.from_ ∈ players.map Player.id ∧
    t.to_ = game.placements.first ∧ t.from_ ≠ game.placements.first) ∧
  (∀ t ∈ game.anChot, t.from_ ∈ players.map Player.id ∧
    t.to_ ∈ players.map Player.id ∧ t.from_ ≠ t.to_)

/-- The source's condition for the second-place bonus in burn mode:
`second && !chaySet.has(second) && second !== winner`. -/
abbrev secondBonusOK (game : Game) : Prop :=
  game.placements.second ≠ "" ∧ game.placements.second ∉ chayFroms game ∧
    game.placements.second ≠ game.placements.first

/-- The source's condition for the third-place bonus in burn mode:
`third && !chaySet.has(third) && third !== winner && third !== second`. -/
abbrev thirdBonusOK (game : Game) : Prop :=
  game.placements.third ≠ "" ∧ game.placements.third ∉ chayFroms game ∧
    game.placements.third ≠ game.placements.first ∧
    game.placements.third ≠ game.placements.second

/-- Stage 1 of the burn branch: 4 points from every distinct burned player
to the winner. -/
def burnPts1 (game : Game) (players : List Player) : List (String × JsNum) :=
  (chayFroms game).foldl
    (fun m pid => if pid = game.placements.first then m
      else updAdd (updSub m pid 4) game.placements.first 4)
    (initPoints players)

/-- Stage 2 of the burn branch: the second-place bonus. -/
def burnPts2 (game : Game) (players : List Player) : List (String × JsNum) :=
  if secondBonusOK game then
    updAdd (updSub (burnPts1 game players) game.placements.second 1)
      game.placements.first 1
  else burnPts1 game players

/-- Stage 3 of the burn branch: the third-place bonus. -/
def burnPts (game : Game) (players : List Player) : List (String × JsNum) :=
  if thirdBonusOK game then
    updAdd (updSub (burnPts2 game players) game.placements.third 2)
      game.placements.first 2
  else burnPts2 game players

/-- The source's `nonChay` list: player ids not in the burned set. -/
def burnNonChay (game : Game) (players : List Player) : List String :=
  (players.map Player.id).filter fun i => decide (i ∉ chayFroms game)

/-- The completeness warnings of the burn branch. -/
def burnWarns (game : Game) (players : List Player) : List String :=
  (if 2 ≤ (burnNonChay game players).length ∧
      (game.placements.second = "" ∨
       game.placements.second = game.placements.first ∨
       game.placements.second ∈ chayFroms game) then
    ["Thiếu người về nhì"]
  else []) ++
  (if 3 ≤ (burnNonChay game players).length ∧
      (game.placements.third = "" ∨
       game.placements.third = game.placements.first ∨
       game.placements.third = game.placements.second ∨
       game.placements.third ∈ chayFroms game) then
    ["Thiếu người về ba"]
  else [])

/-- The ranking-mode completeness condition: all four slots filled with
four pairwise-distinct ids (the source checks `unique.size === 4` on the
truthy placement values). -/
abbrev rankingComplete (game : Game) : Prop :=
  game.placements.first ≠ "" ∧ game.placements.second ≠ "" ∧
  game.placements.third ≠ "" ∧ game.placements.fourth ≠ "" ∧
  game.placements.first ≠ game.placements.second ∧
  game.placements.first ≠ game.placements.third ∧
  game.placements.first ≠ game.placements.fourth ∧
  game.placements.second ≠ game.placements.third ∧
  game.placements.second ≠ game.placements.fourth ∧
  game.placements.third ≠ game.placements.fourth

/-- Spec-side count: how many times, across all rounds, `i` appears as the
`from` side of a `sel`-entry (burn or manual transfer). -/
def fromCount (games : List Game) (sel : Game → List Transfer)
    (i : String) : Nat :=
  (games.map fun g => ((sel g).filter fun t => decide (t.from_ = i)).length).sum

/-- Spec-side maximum of `fromCount` over the players (at least 0). -/
def maxFromCount (games : List Game) (players : List Player)
    (sel : Game → List Transfer) : Nat :=
  (players.map fun p => fromCount games sel p.id).foldl Nat.max 0

/-- The four fixed seats used by concrete witnesses. -/
def samplePlayers : List Player :=
  [⟨"p1", "An"⟩, ⟨"p2", "Bình"⟩, ⟨"p3", "Chi"⟩, ⟨"p4", "Dũng"⟩]

/-- A self-win round with a burn entry still recorded: it violates §3's
"enabling `selfWin` clears `burns`", yet the engine scores it silently. -/
def roundSelfWinWithBurn : Game :=
  ⟨"g", true, ⟨"p1", "", "", ""⟩, [], [⟨"c1", "p2", "p1", 4⟩]⟩

/-- A self-win round: winner in slot `first`, everything else empty. -/
def roundSelfWin : Game :=
  ⟨"g", true, ⟨"p3", "", "", ""⟩, [], []⟩

/-- A fully ranked round with no burns and no manual transfers. -/
def roundRanked : Game :=
  ⟨"g", false, ⟨"p1", "p2", "p3", "p4"⟩, [], []⟩

/-- A burn round: winner `p1`, burner `p2`, second `p3`, third `p4`. -/
def roundBurn : Game :=
  ⟨"g", false, ⟨"p1", "p3", "p4", ""⟩, [], [⟨"c1", "p2", "p1", 4⟩]⟩

/-- `roundBurn` with the burn entry's `to`/`points` fields made stale. -/
def roundBurnStale : Game :=
  ⟨"g", false, ⟨"p1", "p3", "p4", ""⟩, [], [⟨"c1", "p2", "", 9⟩]⟩

/-- A ranking-mode round with only `first` assigned (incomplete). -/
def roundIncomplete : Game :=
  ⟨"g", false, ⟨"p1", "", "", ""⟩, [], []⟩

/-- A burn round with two burners and no second/third placements. -/
def roundBurnTwo : Game :=
  ⟨"g", false, ⟨"p1", "", "", ""⟩, [],
    [⟨"c1", "p2", "p1", 4⟩, ⟨"c2", "p3", "p1", 4⟩]⟩

instance (players : List Player) : Decidable (validIds players) := by
  unfold validIds; infer_instance

instance (players : List Player) (s : String) : Decidable (slotOk players s) := by
  unfold slotOk; infer_instance

instance (players : List Player) (game : Game) :
    Decidable (endpointsOk players game) := by
  unfold endpointsOk; infer_instance

instance (players : List Player) (game : Game) :
    Decidable (placementsOk players game) := by
  unfold placementsOk; infer_instance

instance (game : Game) (players : List Player) :
    Decidable (sectionThreeValid game players) := by
  unfold sectionThreeValid; infer_instance

/-! ### Basic lemmas about the JS-semantics helpers -/

/-- Helper predicate: `m` is the association list tabulating `g` on `ids`. -/
def reprMap {α : Type} (m : List (String × α)) (ids : List String)
    (g : String → α) : Prop :=
  m = ids.map fun i => (i, g i)

/-- Folding `jsAdd` of `g` over a list of ids, from `0`. -/
def jsSumOver (ids : List String) (g : String → JsNum) : JsNum :=
  ids.foldl (fun acc i => jsAdd acc (g i)) (some 0)

theorem jsAdd_zero (a : JsNum) : jsAdd a (some 0) = a := by
  cases a <;> simp [jsAdd]

theorem jsAdd_shift (a : JsNum) (x y : Int) :
    jsAdd (jsAdd a (some x)) (some y) = jsAdd a (some (x + y)) := by
  cases a <;> simp [jsAdd, add_assoc]

theorem jsAdd_right_comm (a b c : JsNum) :
    jsAdd (jsAdd a b) c = jsAdd (jsAdd a c) b := by
  cases a <;> cases b <;> cases c <;> simp [jsAdd, add_right_comm]

theorem setDedup_sublist (l : List String) : List.Sublist (setDedup l) l := by
  induction l with
  | nil => simp [setDedup]
  | cons x xs ih =>
    exact ((List.filter_sublist _).trans ih).cons₂ x

theorem mem_setDedup {a : String} {l : List String} :
    a ∈ setDedup l ↔ a ∈ l := by
  induction l with
  | nil => simp [setDedup]
  | cons x xs ih =>
    simp only [setDedup, List.mem_cons, List.mem_filter,
      decide_eq_true_eq]
    constructor
    · rintro (rfl | ⟨h, _⟩)
      · exact .inl rfl
      · exact .inr (ih.mp h)
    · rintro (rfl | h)
      · exact .inl rfl
      · by_cases hx : a = x
        · exact .inl hx
        · exact .inr ⟨ih.mpr h, hx⟩

theorem setDedup_nodup (l : List String) : (setDedup l).Nodup := by
  induction l with
  | nil => simp [setDedup]
  | cons x xs ih =>
    refine List.nodup_cons.mpr ⟨?_, ih.filter _⟩
    intro hmem
    have := (List.mem_filter.mp hmem).2
    simp at this

theorem setDedup_eq_self {l : List String} (h : l.Nodup) : setDedup l = l := by
  induction l with
  | nil => rfl
  | cons x xs ih =>
    rcases List.nodup_cons.mp h with ⟨hx, hxs⟩
    simp only [setDedup, ih hxs]
    congr 1
    refine List.filter_eq_self.mpr fun a ha => ?_
    simp only [decide_eq_true_eq]
    rintro rfl
    exact hx ha

theorem nodup_of_setDedup_length {l : List String}
    (h : (setDedup l).length = l.length) : l.Nodup := by
  have he := (setDedup_sublist l).eq_of_length h
  rw [← he]
  exact setDedup_nodup l

theorem find_tab {α : Type} (ids : List String) (g : String → α) (k : String)
    (hmem : k ∈ ids) :
    (ids.map fun i => (i, g i)).find? (fun p => decide (p.1 = k))
      = some (k, g k) := by
  induction ids with
  | nil => cases hmem
  | cons x xs ih =>
    by_cases hx : x = k
    · subst hx
      simp [List.find?]
    · rcases List.mem_cons.mp hmem with h | h
      · exact absurd h.symm hx
      · simpa [List.find?, hx] using ih h

theorem jsGet_reprMap {α : Type} {m : List (String × α)} {ids : List String}
    {g : String → α} (k : String) (hmem : k ∈ ids) (h : reprMap m ids g) :
    jsGet m k = some (g k) := by
  subst h
  simp [jsGet, find_tab ids g k hmem]

theorem reprMap_congr {α : Type} {m : List (String × α)} {ids : List String}
    {g g' : String → α} (h : reprMap m ids g)
    (he : ∀ i ∈ ids, g' i = g i) : reprMap m ids g' := by
  unfold reprMap at *
  subst h
  exact (List.map_congr_left fun i hi => by rw [he i hi]).symm

theorem jsModify_reprMap {α : Type} {m : List (String × α)} {ids : List String}
    {g : String → α} (k : String) (upd : α → α) (miss : α)
    (hmem : k ∈ ids) (h : reprMap m ids g) :
    reprMap (jsModify m k upd miss) ids
      (fun i => if i = k then upd (g i) else g i) := by
  subst h
  unfold reprMap jsModify
  rw [if_pos]
  · rw [List.map_map]
    refine List.map_congr_left fun i _ => ?_
    by_cases hi : i = k <;> simp [hi]
  · simp only [List.any_eq_true, decide_eq_true_eq]
    exact ⟨(k, g k), List.mem_map.mpr ⟨k, hmem, rfl⟩, rfl⟩

theorem updAdd_reprMap {m : List (String × JsNum)} {ids : List String}
    {g : String → JsNum} (k : String) (d : Int)
    (hmem : k ∈ ids) (h : reprMap m ids g) :
    reprMap (updAdd m k d) ids
      (fun i => if i = k then jsAdd (g i) (some d) else g i) := by
  have := jsModify_reprMap k (fun v => v.map fun x => x + d) none hmem h
  refine reprMap_congr this fun i _ => ?_
  by_cases hi : i = k <;> [skip; simp [hi]]
  cases hg : g i <;> simp [hi, hg, jsAdd]

theorem updSub_reprMap {m : List (String × JsNum)} {ids : List String}
    {g : String → JsNum} (k : String) (d : Int)
    (hmem : k ∈ ids) (h : reprMap m ids g) :
    reprMap (updSub m k d) ids
      (fun i => if i = k then jsAdd (g i) (some (-d)) else g i) := by
  have := jsModify_reprMap k (fun v => v.map fun x => x - d) none hmem h
  refine reprMap_congr this fun i _ => ?_
  by_cases hi : i = k <;> [skip; simp [hi]]
  cases hg : g i <;> simp [hi, hg, jsAdd, sub_eq_add_neg]

theorem setPts_reprMap {m : List (String × JsNum)} {ids : List String}
    {g : String → JsNum} (k : String) (v : Int)
    (hmem : k ∈ ids) (h : reprMap m ids g) :
    reprMap (setPts m k v) ids (fun i => if i = k then some v else g i) :=
  jsModify_reprMap k (fun _ => some v) (some v) hmem h

theorem addJs_reprMap {m : List (String × JsNum)} {ids : List String}
    {g : String → JsNum} (k : String) (d : JsNum)
    (hmem : k ∈ ids) (h : reprMap m ids g) :
    reprMap (addJs m k d) ids
      (fun i => if i = k then jsAdd (g i) d else g i) :=
  jsModify_reprMap k (fun v => jsAdd v d) none hmem h

theorem sumVals_reprMap {m : List (String × JsNum)} {ids : List String}
    {g : String → JsNum} (h : reprMap m ids g) :
    sumVals m = jsSumOver ids g := by
  subst h
  unfold sumVals jsSumOver
  rw [List.foldl_map]

theorem foldl_gAdd_pull (l : List String) (g : String → JsNum) (A d : JsNum) :
    l.foldl (fun acc i => jsAdd acc (g i)) (jsAdd A d)
      = jsAdd (l.foldl (fun acc i => jsAdd acc (g i)) A) d := by
  induction l generalizing A with
  | nil => rfl
  | cons x xs ih =>
    simp only [List.foldl_cons]
    rw [jsAdd_right_comm A d (g x), ih]

theorem foldl_over_congr {α β : Type} (l : List β) (f₁ f₂ : α → β → α)
    (h : ∀ a b, b ∈ l → f₁ a b = f₂ a b) :
    ∀ a, l.foldl f₁ a = l.foldl f₂ a := by
  induction l with
  | nil => intro a; rfl
  | cons x xs ih =>
    intro a
    simp only [List.foldl_cons]
    rw [h a x (List.mem_cons_self x xs)]
    exact ih (fun a b hb => h a b (List.mem_cons_of_mem x hb)) _

theorem jsAdd_assoc (a b c : JsNum) :
    jsAdd (jsAdd a b) c = jsAdd a (jsAdd b c) := by
  cases a <;> cases b <;> cases c <;> simp [jsAdd, add_assoc]

theorem foldl_update_aux (ids : List String) (g : String → JsNum) (k : String)
    (d : Int) (hnd : ids.Nodup) (hk : k ∈ ids) (a : JsNum) :
    ids.foldl
      (fun acc i => jsAdd acc (if i = k then jsAdd (g i) (some d) else g i)) a
      = jsAdd (ids.foldl (fun acc i => jsAdd acc (g i)) a) (some d) := by
  induction ids generalizing a with
  | nil => cases hk
  | cons x xs ih =>
    rcases List.nodup_cons.mp hnd with ⟨hx, hxs⟩
    simp only [List.foldl_cons]
    by_cases hxk : x = k
    · rw [if_pos hxk]
      have hkxs : ∀ i ∈ xs, i ≠ k :=
        fun i hi he => hx ((he.trans hxk.symm) ▸ hi)
      rw [foldl_over_congr xs
        (fun acc i => jsAdd acc (if i = k then jsAdd (g i) (some d) else g i))
        (fun acc i => jsAdd acc (g i))
        (fun a i hi => by simp [hkxs i hi])]
      rw [← jsAdd_assoc, foldl_gAdd_pull]
    · have hkxs : k ∈ xs := by
        rcases List.mem_cons.mp hk with h | h
        · exact absurd h.symm hxk
        · exact h
      rw [if_neg hxk, ih hxs hkxs]

theorem jsSumOver_update {ids : List String} (g : String → JsNum) (k : String)
    (d : Int) (hnd : ids.Nodup) (hk : k ∈ ids) :
    jsSumOver ids (fun i => if i = k then jsAdd (g i) (some d) else g i)
      = jsAdd (jsSumOver ids g) (some d) :=
  foldl_update_aux ids g k d hnd hk (some 0)

theorem jsSumOver_zero (ids : List String) :
    jsSumOver ids (fun _ => some 0) = some 0 := by
  unfold jsSumOver
  induction ids with
  | nil => rfl
  | cons x xs ih =>
    simpa [jsAdd] using ih

/-! ### Lemmas about the individual scoring branches -/

theorem selfWinFold_reprMap (winner : String) (ps : List Player) :
    ∀ (m : List (String × JsNum)) (ids : List String) (g : String → JsNum),
      (∀ p ∈ ps, p.id ∈ ids) → reprMap m ids g →
      reprMap
        (ps.foldl
          (fun m p => setPts m p.id (if p.id = winner then 15 else -5)) m) ids
        (fun i => if i ∈ ps.map Player.id then
            (if i = winner then some 15 else some (-5)) else g i) := by
  induction ps with
  | nil =>
    intro m ids g _ h
    refine reprMap_congr h fun i _ => by simp
  | cons p ps ih =>
    intro m ids g hids h
    simp only [List.foldl_cons]
    have hp : p.id ∈ ids := hids p (List.mem_cons_self p ps)
    have h1 := setPts_reprMap p.id (if p.id = winner then 15 else -5) hp h
    have h2 := ih _ ids _ (fun q hq => hids q (List.mem_cons_of_mem p hq)) h1
    refine reprMap_congr h2 fun i _ => ?_
    by_cases hmem : i ∈ ps.map Player.id
    · simp [hmem]
    · by_cases hip : i = p.id
      · subst hip
        by_cases hw : p.id = winner <;> simp [hmem, hw]
      · simp [hmem, hip]

theorem burnFold_reprMap (winner : String) (l : List String) :
    ∀ (m : List (String × JsNum)) (ids : List String) (g : String → JsNum),
      l.Nodup → winner ∉ l → (∀ x ∈ l, x ∈ ids) → winner ∈ ids →
      reprMap m ids g →
      reprMap
        (l.foldl
          (fun m pid =>
            if pid = winner then m else updAdd (updSub m pid 4) winner 4) m) ids
        (fun i => if i = winner then jsAdd (g i) (some (4 * l.length))
          else if i ∈ l then jsAdd (g i) (some (-4)) else g i) := by
  induction l with
  | nil =>
    intro m ids g _ _ _ _ h
    refine reprMap_congr h fun i _ => ?_
    by_cases hw : i = winner <;> simp [hw, jsAdd_zero]
  | cons x l ih =>
    intro m ids g hnd hnw hsub hw h
    have hxw : x ≠ winner := by
      intro he
      exact hnw (he ▸ List.mem_cons_self x l)
    have hwl : winner ∉ l := fun hm => hnw (List.mem_cons_of_mem x hm)
    rcases List.nodup_cons.mp hnd with ⟨hxl, hlnd⟩
    have hx : x ∈ ids := hsub x (List.mem_cons_self x l)
    simp only [List.foldl_cons, if_neg hxw]
    have hA := updSub_reprMap x 4 hx h
    have hB := updAdd_reprMap winner 4 hw hA
    have hC := ih _ ids _ hlnd hwl
      (fun y hy => hsub y (List.mem_cons_of_mem x hy)) hw hB
    refine reprMap_congr hC fun i _ => ?_
    by_cases hiw : i = winner
    · have hix : i ≠ x := fun he => hxw (he ▸ hiw)
      simp only [if_pos hiw, if_neg hix]
      rw [jsAdd_shift]
      congr 2
      push_cast [List.length_cons]
      ring
    · by_cases hix : i = x
      · subst hix
        simp [hiw, hxl, hxw]
      · by_cases hil : i ∈ l
        · simp [hiw, hix, hil, List.mem_cons]
        · have hnc : i ∉ (x :: l) := by
            simp [List.mem_cons, hix, hil]
          simp [hiw, hix, hil, hnc]

theorem burnFold_sum (winner : String) (l : List String) :
    ∀ (m : List (String × JsNum)) (ids : List String) (g : String → JsNum),
      ids.Nodup → (∀ x ∈ l, x ∈ ids) → winner ∈ ids →
      reprMap m ids g →
      ∃ g', reprMap
          (l.foldl
            (fun m pid =>
              if pid = winner then m else updAdd (updSub m pid 4) winner 4) m)
          ids g' ∧
        jsSumOver ids g' = jsSumOver ids g := by
  induction l with
  | nil =>
    intro m ids g _ _ _ h
    exact ⟨g, h, rfl⟩
  | cons x l ih =>
    intro m ids g hnd hsub hw h
    simp only [List.foldl_cons]
    by_cases hxw : x = winner
    · rw [if_pos hxw]
      exact ih m ids g hnd (fun y hy => hsub y (List.mem_cons_of_mem x hy)) hw h
    · rw [if_neg hxw]
      have hx : x ∈ ids := hsub x (List.mem_cons_self x l)
      have hA := updSub_reprMap x 4 hx h
      have hB := updAdd_reprMap winner 4 hw hA
      obtain ⟨g', hg', hsum⟩ :=
        ih _ ids _ hnd (fun y hy => hsub y (List.mem_cons_of_mem x hy)) hw hB
      refine ⟨g', hg', ?_⟩
      rw [hsum, jsSumOver_update _ winner 4 hnd hw,
        jsSumOver_update _ x (-4) hnd hx, jsAdd_shift]
      simp [jsAdd_zero]

theorem transWarnings (l : List Transfer) :
    ∀ (m : List (String × JsNum)) (ws : List String),
      ∃ extra, (l.foldl applyTransfer (m, ws)).2 = ws ++ extra ∧
        (∀ w ∈ extra, w = "Chuyển điểm chưa hợp lệ") ∧
        (extra = [] ↔
          ∀ t ∈ l, ¬(t.from_ = "" ∨ t.to_ = "" ∨ t.from_ = t.to_)) := by
  induction l with
  | nil =>
    intro m ws
    exact ⟨[], by simp, by simp, by simp⟩
  | cons t l ih =>
    intro m ws
    simp only [List.foldl_cons]
    by_cases hv : t.from_ = "" ∨ t.to_ = "" ∨ t.from_ = t.to_
    · rw [show applyTransfer (m, ws) t
          = (m, ws ++ ["Chuyển điểm chưa hợp lệ"]) by
        unfold applyTransfer; rw [if_pos hv]]
      obtain ⟨e, h1, h2, h3⟩ := ih m (ws ++ ["Chuyển điểm chưa hợp lệ"])
      refine ⟨"Chuyển điểm chưa hợp lệ" :: e, ?_, ?_, ?_⟩
      · rw [h1, List.append_assoc]
        rfl
      · intro w hw
        rcases List.mem_cons.mp hw with h | h
        · exact h
        · exact h2 w h
      · constructor
        · intro hc
          cases hc
        · intro hall
          exact absurd hv (hall t (List.mem_cons_self t l))
    · rw [show applyTransfer (m, ws) t
          = (updAdd (updSub m t.from_ t.points) t.to_ t.points, ws) by
        unfold applyTransfer; rw [if_neg hv]]
      obtain ⟨e, h1, h2, h3⟩ := ih (updAdd (updSub m t.from_ t.points) t.to_ t.points) ws
      refine ⟨e, h1, h2, ?_⟩
      rw [h3]
      constructor
      · intro hall t' ht'
        rcases List.mem_cons.mp ht' with h | h
        · exact h ▸ hv
        · exact hall t' h
      · intro hall t' ht'
        exact hall t' (List.mem_cons_of_mem t ht')

theorem transPoints_reprMap (l : List Transfer) :
    ∀ (m : List (String × JsNum)) (ws : List String) (ids : List String)
      (g : String → JsNum),
      ids.Nodup → reprMap m ids g →
      (∀ t ∈ l, ¬(t.from_ = "" ∨ t.to_ = "" ∨ t.from_ = t.to_) ∧
        t.from_ ∈ ids ∧ t.to_ ∈ ids) →
      ∃ g', reprMap (l.foldl applyTransfer (m, ws)).1 ids g' ∧
        jsSumOver ids g' = jsSumOver ids g := by
  induction l with
  | nil =>
    intro m ws ids g _ h _
    exact ⟨g, h, rfl⟩
  | cons t l ih =>
    intro m ws ids g hnd h hall
    obtain ⟨hv, hf, ht⟩ := hall t (List.mem_cons_self t l)
    simp only [List.foldl_cons]
    rw [show applyTransfer (m, ws) t
        = (updAdd (updSub m t.from_ t.points) t.to_ t.points, ws) by
      unfold applyTransfer; rw [if_neg hv]]
    have hA := updSub_reprMap t.from_ t.points hf h
    have hB := updAdd_reprMap t.to_ t.points ht hA
    obtain ⟨g', hg', hsum⟩ := ih _ ws ids _ hnd hB
      (fun t' ht' => hall t' (List.mem_cons_of_mem t ht'))
    refine ⟨g', hg', ?_⟩
    rw [hsum, jsSumOver_update _ t.to_ t.points hnd ht,
      jsSumOver_update _ t.from_ (-t.points) hnd hf, jsAdd_shift]
    simp [jsAdd_zero]

theorem updAdd_sum {m : List (String × JsNum)} {ids : List String}
    {g : String → JsNum} (k : String) (d : Int) (hnd : ids.Nodup)
    (hk : k ∈ ids) (h : reprMap m ids g) :
    ∃ g', reprMap (updAdd m k d) ids g' ∧
      jsSumOver ids g' = jsAdd (jsSumOver ids g) (some d) :=
  ⟨_, updAdd_reprMap k d hk h, jsSumOver_update g k d hnd hk⟩

theorem updSub_sum {m : List (String × JsNum)} {ids : List String}
    {g : String → JsNum} (k : String) (d : Int) (hnd : ids.Nodup)
    (hk : k ∈ ids) (h : reprMap m ids g) :
    ∃ g', reprMap (updSub m k d) ids g' ∧
      jsSumOver ids g' = jsAdd (jsSumOver ids g) (some (-d)) :=
  ⟨_, updSub_reprMap k d hk h, jsSumOver_update g k (-d) hnd hk⟩

theorem length_eq_four {α : Type} {l : List α} (h : l.length = 4) :
    ∃ a b c d, l = [a, b, c, d] := by
  match l, h with
  | [a, b, c, d], _ => exact ⟨a, b, c, d, rfl⟩

theorem nodup_four {α : Type} {a b c d : α} (h : ([a, b, c, d]).Nodup) :
    a ≠ b ∧ a ≠ c ∧ a ≠ d ∧ b ≠ c ∧ b ≠ d ∧ c ≠ d := by
  simp only [List.nodup_cons, List.mem_cons, List.not_mem_nil, or_false,
    List.nodup_nil, and_true, not_or] at h
  tauto

theorem nodup_four_mk {α : Type} {a b c d : α}
    (h : a ≠ b ∧ a ≠ c ∧ a ≠ d ∧ b ≠ c ∧ b ≠ d ∧ c ≠ d) :
    ([a, b, c, d]).Nodup := by
  simp only [List.nodup_cons, List.mem_cons, List.not_mem_nil, or_false,
    List.nodup_nil, and_true, not_or]
  tauto

theorem selfwin_sum (ids : List String) (W : String) (hnd : ids.Nodup)
    (hlen : ids.length = 4) (hW : W ∈ ids) :
    jsSumOver ids (fun i => if i = W then some 15 else some (-5)) = some 0 := by
  obtain ⟨a, b, c, d, rfl⟩ := length_eq_four hlen
  obtain ⟨hab, hac, had, hbc, hbd, hcd⟩ := nodup_four hnd
  simp only [List.mem_cons, List.not_mem_nil, or_false] at hW
  rcases hW with rfl | rfl | rfl | rfl
  · simp [jsSumOver, jsAdd, Ne.symm hab, Ne.symm hac, Ne.symm had]
  · simp [jsSumOver, jsAdd, hab, Ne.symm hbc, Ne.symm hbd]
  · simp [jsSumOver, jsAdd, hac, hbc, Ne.symm hcd]
  · simp [jsSumOver, jsAdd, had, hbd, hcd]

theorem rank_unique_iff (f s t fo : String) :
    (setDedup ([f, s, t, fo].filter fun x => decide (x ≠ ""))).length = 4 ↔
      (f ≠ "" ∧ s ≠ "" ∧ t ≠ "" ∧ fo ≠ "" ∧ f ≠ s ∧ f ≠ t ∧ f ≠ fo ∧
        s ≠ t ∧ s ≠ fo ∧ t ≠ fo) := by
  constructor
  · intro h
    have hfl : ([f, s, t, fo].filter fun x => decide (x ≠ "")).length ≤ 4 :=
      List.length_filter_le _ _
    have hdl := setDedup_sublist ([f, s, t, fo].filter fun x => decide (x ≠ ""))
    have hdle := hdl.length_le
    have hfl4 : ([f, s, t, fo].filter fun x => decide (x ≠ "")).length = 4 := by
      omega
    have hfeq : ([f, s, t, fo].filter fun x => decide (x ≠ ""))
        = [f, s, t, fo] :=
      (List.filter_sublist _).eq_of_length hfl4
    have hall : ∀ x ∈ [f, s, t, fo], x ≠ "" := by
      intro x hx
      have := List.filter_eq_self.mp hfeq x hx
      simpa using this
    have hnd : ([f, s, t, fo] : List String).Nodup := by
      refine nodup_of_setDedup_length ?_
      rw [hfeq] at h
      simp [h]
    obtain ⟨hfs, hft, hffo, hst, hsfo, htfo⟩ := nodup_four hnd
    exact ⟨hall f (by simp), hall s (by simp), hall t (by simp),
      hall fo (by simp), hfs, hft, hffo, hst, hsfo, htfo⟩
  · rintro ⟨h1, h2, h3, h4, h5, h6, h7, h8, h9, h10⟩
    have hfeq : ([f, s, t, fo].filter fun x => decide (x ≠ ""))
        = [f, s, t, fo] := by
      refine List.filter_eq_self.mpr fun x hx => ?_
      simp only [List.mem_cons, List.not_mem_nil, or_false] at hx
      rcases hx with rfl | rfl | rfl | rfl
      · simpa using h1
      · simpa using h2
      · simpa using h3
      · simpa using h4
    have hnd : ([f, s, t, fo] : List String).Nodup :=
      nodup_four_mk ⟨h5, h6, h7, h8, h9, h10⟩
    rw [hfeq, setDedup_eq_self hnd]
    rfl

theorem modePoints_rank (game : Game) (players : List Player)
    (hu : game.u = false) (hch : chayFroms game = []) :
    modePoints game players =
      (if (setDedup ([game.placements.first, game.placements.second,
          game.placements.third, game.placements.fourth].filter
            fun x => decide (x ≠ ""))).length ≠ 4 then
        (initPoints players, ["Chưa đủ xếp hạng 1-4"])
      else
        (updSub (updSub (updSub (updAdd (initPoints players)
            game.placements.first 6) game.placements.second 1)
            game.placements.third 2) game.placements.fourth 3, [])) := by
  have h1 : ¬(game.u = true) := by simp [hu]
  have h2 : (chayFroms game).isEmpty = true := by
    simp [List.isEmpty_iff, hch]
  unfold modePoints
  simp only [if_neg h1, if_pos h2]

theorem modePoints_burn (game : Game) (players : List Player)
    (hu : game.u = false) (hne : chayFroms game ≠ [])
    (hWne : game.placements.first ≠ "")
    (hWnb : game.placements.first ∉ chayFroms game) :
    modePoints game players = (burnPts game players, burnWarns game players) := by
  have h1 : ¬(game.u = true) := by simp [hu]
  have h2 : ¬((chayFroms game).isEmpty = true) := by
    simp [List.isEmpty_iff, hne]
  unfold modePoints burnPts burnPts2 burnPts1 burnWarns burnNonChay
  simp only [if_neg h1, if_neg h2, if_neg hWne, if_neg hWnb]

theorem bonus_sum {m : List (String × JsNum)} {ids : List String}
    {g : String → JsNum} (cond : Prop) [Decidable cond] (k W : String)
    (d : Int) (hnd : ids.Nodup) (hkm : cond → k ∈ ids) (hWm : W ∈ ids)
    (h : reprMap m ids g) (hsum : jsSumOver ids g = some 0) :
    ∃ g', reprMap (if cond then updAdd (updSub m k d) W d else m) ids g' ∧
      jsSumOver ids g' = some 0 := by
  by_cases hc : cond
  · rw [if_pos hc]
    obtain ⟨gA, hA, sA⟩ := updSub_sum k d hnd (hkm hc) h
    obtain ⟨gB, hB, sB⟩ := updAdd_sum W d hnd hWm hA
    refine ⟨gB, hB, ?_⟩
    rw [sB, sA, hsum, jsAdd_shift]
    simp [jsAdd]
  · rw [if_neg hc]
    exact ⟨g, h, hsum⟩

theorem modePoints_sum (game : Game) (players : List Player)
    (hids : validIds players) (hpl : placementsOk players game)
    (hchOk : ∀ t ∈ game.chay, slotOk players t.from_)
    (hmw : (modePoints game players).2 = []) :
    ∃ g, reprMap (modePoints game players).1 (players.map Player.id) g ∧
      jsSumOver (players.map Player.id) g = some 0 := by
  obtain ⟨hlen, hnd, hnempty⟩ := hids
  obtain ⟨hpf, hps, hpt, hpfo⟩ := hpl
  have hidlen : (players.map Player.id).length = 4 := by simp [hlen]
  have h0 : reprMap (initPoints players) (players.map Player.id)
      (fun _ => some 0) := by
    unfold reprMap initPoints
    rw [setDedup_eq_self hnd]
  by_cases hu : game.u = true
  · by_cases hwe : game.placements.first = ""
    · have hpair : modePoints game players
          = (initPoints players, ["Chưa chọn người Ù"]) := by
        unfold modePoints
        simp only [if_pos hu, if_pos hwe]
      rw [hpair] at hmw
      simp at hmw
    · have hW : game.placements.first ∈ players.map Player.id := by
        rcases hpf with he | hm
        · exact absurd he hwe
        · exact hm
      have hpair : modePoints game players
          = (players.foldl
              (fun m p => setPts m p.id
                (if p.id = game.placements.first then 15 else -5))
              (initPoints players), []) := by
        unfold modePoints
        simp only [if_pos hu, if_neg hwe]
      have hfold := selfWinFold_reprMap game.placements.first players _
        (players.map Player.id) _
        (fun q hq => List.mem_map.mpr ⟨q, hq, rfl⟩) h0
      refine ⟨fun i => if i = game.placements.first then some 15
        else some (-5), ?_, selfwin_sum _ _ hnd hidlen hW⟩
      rw [hpair]
      refine reprMap_congr hfold fun i hi => ?_
      simp [hi]
  · have hu' : game.u = false := by simpa using hu
    by_cases hch : chayFroms game = []
    · -- ranking mode
      have hmr := modePoints_rank game players hu' hch
      by_cases hlen4 : (setDedup ([game.placements.first,
          game.placements.second, game.placements.third,
          game.placements.fourth].filter fun x => decide (x ≠ ""))).length = 4
      · rw [if_neg (by simpa using hlen4)] at hmr
        obtain ⟨hne1, hne2, hne3, hne4, hd1, hd2, hd3, hd4, hd5, hd6⟩ :=
          (rank_unique_iff _ _ _ _).mp hlen4
        have hf : game.placements.first ∈ players.map Player.id := by
          rcases hpf with he | hm
          · exact absurd he hne1
          · exact hm
        have hs : game.placements.second ∈ players.map Player.id := by
          rcases hps with he | hm
          · exact absurd he hne2
          · exact hm
        have ht : game.placements.third ∈ players.map Player.id := by
          rcases hpt with he | hm
          · exact absurd he hne3
          · exact hm
        have hfo : game.placements.fourth ∈ players.map Player.id := by
          rcases hpfo with he | hm
          · exact absurd he hne4
          · exact hm
        obtain ⟨g1, hr1, hs1⟩ := updAdd_sum game.placements.first 6 hnd hf h0
        obtain ⟨g2, hr2, hs2⟩ :=
          updSub_sum game.placements.second 1 hnd hs hr1
        obtain ⟨g3, hr3, hs3⟩ := updSub_sum game.placements.third 2 hnd ht hr2
        obtain ⟨g4, hr4, hs4⟩ :=
          updSub_sum game.placements.fourth 3 hnd hfo hr3
        refine ⟨g4, ?_, ?_⟩
        · rw [hmr]
          exact hr4
        · rw [hs4, hs3, hs2, hs1, jsSumOver_zero]
          decide
      · rw [if_pos hlen4] at hmr
        rw [hmr] at hmw
        simp at hmw
    · -- burn mode
      by_cases hwe : game.placements.first = ""
      · have hpair : modePoints game players
            = (initPoints players, ["Cần chọn người thắng để tính cháy"]) := by
          have h1 : ¬(game.u = true) := by simp [hu']
          have h2 : ¬((chayFroms game).isEmpty = true) := by
            simp [List.isEmpty_iff, hch]
          unfold modePoints
          simp only [if_neg h1, if_neg h2, if_pos hwe]
        rw [hpair] at hmw
        simp at hmw
      · by_cases hwb : game.placements.first ∈ chayFroms game
        · have hpair : modePoints game players
              = (initPoints players, ["Người thắng không thể bị cháy"]) := by
            have h1 : ¬(game.u = true) := by simp [hu']
            have h2 : ¬((chayFroms game).isEmpty = true) := by
              simp [List.isEmpty_iff, hch]
            unfold modePoints
            simp only [if_neg h1, if_neg h2, if_neg hwe, if_pos hwb]
          rw [hpair] at hmw
          simp at hmw
        · have hW : game.placements.first ∈ players.map Player.id := by
            rcases hpf with he | hm
            · exact absurd he hwe
            · exact hm
          have hchsub : ∀ x ∈ chayFroms game,
              x ∈ players.map Player.id := by
            intro x hx
            have hx' := mem_setDedup.mp hx
            rcases List.mem_filter.mp hx' with ⟨hmem, hdec⟩
            have hxne : x ≠ "" := by simpa using hdec
            rcases List.mem_map.mp hmem with ⟨t, htc, htx⟩
            rcases hchOk t htc with he | hm
            · exact absurd (htx ▸ he) hxne
            · exact htx ▸ hm
          have hpair := modePoints_burn game players hu' hch hwe hwb
          obtain ⟨gB, hrB, hsB⟩ := burnFold_sum game.placements.first
            (chayFroms game) (initPoints players) (players.map Player.id)
            (fun _ => some 0) hnd hchsub hW h0
          have hsB0 : jsSumOver (players.map Player.id) gB = some 0 := by
            rw [hsB, jsSumOver_zero]
          have hrB1 : reprMap (burnPts1 game players)
              (players.map Player.id) gB := by
            unfold burnPts1
            exact hrB
          have h2' : ∃ g', reprMap (burnPts2 game players)
              (players.map Player.id) g' ∧
              jsSumOver (players.map Player.id) g' = some 0 := by
            unfold burnPts2
            exact bonus_sum (secondBonusOK game) game.placements.second
              game.placements.first 1 hnd
              (fun hc => by
                rcases hps with he | hm
                · exact absurd he hc.1
                · exact hm)
              hW hrB1 hsB0
          obtain ⟨g2, hr2, hs2⟩ := h2'
          have h3' : ∃ g', reprMap (burnPts game players)
              (players.map Player.id) g' ∧
              jsSumOver (players.map Player.id) g' = some 0 := by
            unfold burnPts
            exact bonus_sum (thirdBonusOK game) game.placements.third
              game.placements.first 2 hnd
              (fun hc => by
                rcases hpt with he | hm
                · exact absurd he hc.1
                · exact hm)
              hW hr2 hs2
          obtain ⟨g3, hr3, hs3⟩ := h3'
          refine ⟨g3, ?_, hs3⟩
          rw [hpair]
          exact hr3

theorem total_zero_core (game : Game) (players : List Player)
    (hids : validIds players) (hpl : placementsOk players game)
    (hep : endpointsOk players game)
    (hw : (computeGamePoints game players).warnings = []) :
    (computeGamePoints game players).total = some 0 := by
  obtain ⟨hepc, hepa⟩ := hep
  have hchOk : ∀ t ∈ game.chay, slotOk players t.from_ :=
    fun t ht => (hepc t ht).1
  obtain ⟨mpts, mws, hmp⟩ : ∃ a b, modePoints game players = (a, b) :=
    ⟨_, _, rfl⟩
  have hw' : (game.anChot.foldl applyTransfer (mpts, mws)).2 = [] := by
    have : (computeGamePoints game players).warnings
        = (game.anChot.foldl applyTransfer (modePoints game players)).2 := rfl
    rw [this, hmp] at hw
    exact hw
  obtain ⟨extra, hE1, _, hE3⟩ := transWarnings game.anChot mpts mws
  rw [hE1] at hw'
  rcases List.append_eq_nil.mp hw' with ⟨hmws, hextra⟩
  have hvalid := hE3.mp hextra
  have hmw0 : (modePoints game players).2 = [] := by
    rw [hmp]
    exact hmws
  obtain ⟨g, hrep, hsum⟩ := modePoints_sum game players hids hpl hchOk hmw0
  have hrep' : reprMap mpts (players.map Player.id) g := by
    rw [hmp] at hrep
    exact hrep
  have hnd : (players.map Player.id).Nodup := hids.2.1
  have hcond : ∀ t ∈ game.anChot,
      ¬(t.from_ = "" ∨ t.to_ = "" ∨ t.from_ = t.to_) ∧
      t.from_ ∈ players.map Player.id ∧ t.to_ ∈ players.map Player.id := by
    intro t ht
    have hv := hvalid t ht
    refine ⟨hv, ?_, ?_⟩
    · rcases (hepa t ht).1 with he | hm
      · exact absurd (Or.inl he) hv
      · exact hm
    · rcases (hepa t ht).2 with he | hm
      · exact absurd (Or.inr (Or.inl he)) hv
      · exact hm
  obtain ⟨g', hrepF, hsumF⟩ := transPoints_reprMap game.anChot mpts mws
    (players.map Player.id) g hnd hrep' hcond
  have htot : (computeGamePoints game players).total
      = sumVals (game.anChot.foldl applyTransfer (mpts, mws)).1 := by
    have : (computeGamePoints game players).total
        = sumVals (game.anChot.foldl applyTransfer
            (modePoints game players)).1 := rfl
    rw [this, hmp]
  rw [htot, sumVals_reprMap hrepF, hsumF, hsum]

theorem aggStep_repr (summaryPts : List (String × JsNum)) (ps : List Player) :
    ∀ (m : List (String × JsNum)) (ids : List String) (g : String → JsNum),
      (ps.map Player.id).Nodup → (∀ p ∈ ps, p.id ∈ ids) → reprMap m ids g →
      reprMap
        (ps.foldl (fun t p => addJs t p.id (getOrZero summaryPts p.id)) m) ids
        (fun i => if i ∈ ps.map Player.id
          then jsAdd (g i) (getOrZero summaryPts i) else g i) := by
  induction ps with
  | nil =>
    intro m ids g _ _ h
    exact reprMap_congr h fun i _ => by simp
  | cons p ps ih =>
    intro m ids g hnd hsub h
    rcases List.nodup_cons.mp hnd with ⟨hpnot, hnd'⟩
    simp only [List.foldl_cons]
    have hp : p.id ∈ ids := hsub p (List.mem_cons_self p ps)
    have h1 := addJs_reprMap p.id (getOrZero summaryPts p.id) hp h
    have h2 := ih _ ids _ hnd'
      (fun q hq => hsub q (List.mem_cons_of_mem p hq)) h1
    refine reprMap_congr h2 fun i _ => ?_
    by_cases hmem : i ∈ ps.map Player.id
    · have hip : i ≠ p.id := fun he => hpnot (he ▸ hmem)
      simp [hmem, hip]
    · by_cases hip : i = p.id
      · simp [hmem, hip, hpnot]
      · simp [hmem, hip]

theorem sessionFold_repr (players : List Player) (ss : List ScoreResult) :
    ∀ (m : List (String × JsNum)) (ids : List String) (g : String → JsNum),
      (players.map Player.id).Nodup → (∀ p ∈ players, p.id ∈ ids) →
      reprMap m ids g →
      reprMap
        (ss.foldl
          (fun totals summary => players.foldl
            (fun t p => addJs t p.id (getOrZero summary.points p.id)) totals)
          m) ids
        (fun i => if i ∈ players.map Player.id
          then (ss.map fun s => getOrZero s.points i).foldl jsAdd (g i)
          else g i) := by
  induction ss with
  | nil =>
    intro m ids g _ _ h
    refine reprMap_congr h fun i _ => ?_
    by_cases hmem : i ∈ players.map Player.id <;> simp [hmem]
  | cons s ss ih =>
    intro m ids g hnd hsub h
    simp only [List.foldl_cons]
    have h1 := aggStep_repr s.points players m ids g hnd hsub h
    have h2 := ih _ ids _ hnd hsub h1
    refine reprMap_congr h2 fun i _ => ?_
    by_cases hmem : i ∈ players.map Player.id <;> simp [hmem]

theorem sessionTotals_repr (games : List Game) (players : List Player)
    (hnd : (players.map Player.id).Nodup) :
    reprMap (sessionTotals games players) (players.map Player.id)
      (fun i => (games.map fun g =>
        getOrZero (computeGamePoints g players).points i).foldl
          jsAdd (some 0)) := by
  have h0 : reprMap (initPoints players) (players.map Player.id)
      (fun _ => some 0) := by
    unfold reprMap initPoints
    rw [setDedup_eq_self hnd]
  have h1 := sessionFold_repr players
    (games.map fun g => computeGamePoints g players) (initPoints players)
    (players.map Player.id) (fun _ => some 0) hnd
    (fun p hp => List.mem_map.mpr ⟨p, hp, rfl⟩) h0
  have h2 : reprMap (sessionTotals games players) (players.map Player.id)
      (fun i => if i ∈ players.map Player.id
        then ((games.map fun g => computeGamePoints g players).map
            fun s => getOrZero s.points i).foldl jsAdd (some 0)
        else some 0) := by
    unfold sessionTotals
    exact h1
  refine reprMap_congr h2 fun i hi => ?_
  rw [if_pos hi, List.map_map]
  rfl

/-! ### Lemmas about the frequency statistics -/

theorem foldl_max_spec (l : List Nat) :
    ∀ a, a ≤ l.foldl Nat.max a ∧ (∀ x ∈ l, x ≤ l.foldl Nat.max a) ∧
      (l.foldl Nat.max a = a ∨ l.foldl Nat.max a ∈ l) := by
  induction l with
  | nil =>
    intro a
    exact ⟨le_refl a, by simp, Or.inl rfl⟩
  | cons x xs ih =>
    intro a
    simp only [List.foldl_cons]
    obtain ⟨h1, h2, h3⟩ := ih (Nat.max a x)
    refine ⟨le_trans (Nat.le_max_left a x) h1, ?_, ?_⟩
    · intro y hy
      rcases List.mem_cons.mp hy with rfl | hy'
      · exact le_trans (Nat.le_max_right a y) h1
      · exact h2 y hy'
    · rcases h3 with he | hm
      · have hmx : Nat.max a x = a ∨ Nat.max a x = x := max_choice a x
        rcases hmx with hmx | hmx
        · exact Or.inl (by rw [he, hmx])
        · exact Or.inr (by
            rw [he, hmx]
            exact List.mem_cons_self x xs)
      · exact Or.inr (List.mem_cons_of_mem x hm)

theorem foldl_max_zero {l : List Nat} (h : ∀ x ∈ l, x = 0) :
    l.foldl Nat.max 0 = 0 := by
  induction l with
  | nil => rfl
  | cons x xs ih =>
    simp only [List.foldl_cons]
    rw [h x (List.mem_cons_self x xs),
      show Nat.max 0 0 = 0 from rfl]
    exact ih fun y hy => h y (List.mem_cons_of_mem x hy)

theorem tallyGame_repr (entries : List Transfer) :
    ∀ (m : List (String × Nat)) (ids : List String) (c : String → Nat),
      (∀ i ∈ ids, i ≠ "") →
      (∀ t ∈ entries, t.from_ = "" ∨ t.from_ ∈ ids) →
      reprMap m ids c →
      reprMap
        (entries.foldl
          (fun m t => if t.from_ = "" then m else bumpCount m t.from_) m) ids
        (fun i => c i +
          (entries.filter fun t => decide (t.from_ = i)).length) := by
  induction entries with
  | nil =>
    intro m ids c _ _ h
    exact reprMap_congr h fun i _ => by simp
  | cons t es ih =>
    intro m ids c hne hok h
    simp only [List.foldl_cons]
    by_cases hte : t.from_ = ""
    · rw [if_pos hte]
      have h2 := ih m ids c hne
        (fun t' ht' => hok t' (List.mem_cons_of_mem t ht')) h
      refine reprMap_congr h2 fun i hi => ?_
      have hti : ¬(t.from_ = i) := fun he => hne i hi (he ▸ hte)
      simp [List.filter_cons, hti]
    · rw [if_neg hte]
      have htm : t.from_ ∈ ids := by
        rcases hok t (List.mem_cons_self t es) with he | hm
        · exact absurd he hte
        · exact hm
      have h1 : reprMap (bumpCount m t.from_) ids
          (fun i => if i = t.from_ then c i + 1 else c i) := by
        unfold bumpCount
        exact jsModify_reprMap t.from_ (fun n => n + 1) 1 htm h
      have h2 := ih _ ids _ hne
        (fun t' ht' => hok t' (List.mem_cons_of_mem t ht')) h1
      refine reprMap_congr h2 fun i hi => ?_
      by_cases hti : i = t.from_
      · (simp [hti, List.filter_cons]; omega)
      · have hts : t.from_ ≠ i := Ne.symm hti
        simp [List.filter_cons, hts, hti]

theorem tallyFold_repr (sel : Game → List Transfer) (gs : List Game) :
    ∀ (m : List (String × Nat)) (ids : List String) (c : String → Nat),
      (∀ i ∈ ids, i ≠ "") →
      (∀ g ∈ gs, ∀ t ∈ sel g, t.from_ = "" ∨ t.from_ ∈ ids) →
      reprMap m ids c →
      reprMap
        (gs.foldl
          (fun m g => (sel g).foldl
            (fun m t => if t.from_ = "" then m else bumpCount m t.from_) m) m)
        ids
        (fun i => c i + (gs.map fun g =>
          ((sel g).filter fun t => decide (t.from_ = i)).length).sum) := by
  induction gs with
  | nil =>
    intro m ids c _ _ h
    exact reprMap_congr h fun i _ => by simp
  | cons g gs ih =>
    intro m ids c hne hok h
    simp only [List.foldl_cons]
    have h1 := tallyGame_repr (sel g) m ids c hne
      (fun t ht => hok g (List.mem_cons_self g gs) t ht) h
    have h2 := ih _ ids _ hne
      (fun g' hg' t ht => hok g' (List.mem_cons_of_mem g hg') t ht) h1
    refine reprMap_congr h2 fun i _ => ?_
    simp [Nat.add_assoc]

theorem tallyFrom_repr (games : List Game) (players : List Player)
    (sel : Game → List Transfer) (hids : validIds players)
    (hok : ∀ g ∈ games, ∀ t ∈ sel g,
      t.from_ = "" ∨ t.from_ ∈ players.map Player.id) :
    reprMap (tallyFrom games players sel) (players.map Player.id)
      (fun i => fromCount games sel i) := by
  obtain ⟨hlen, hnd, hnempty⟩ := hids
  have hne : ∀ i ∈ players.map Player.id, i ≠ "" := by
    intro i hi
    rcases List.mem_map.mp hi with ⟨p, hp, hpi⟩
    exact hpi ▸ hnempty p hp
  have h0 : reprMap (initCounts players) (players.map Player.id)
      (fun _ => 0) := by
    unfold reprMap initCounts
    rw [setDedup_eq_self hnd]
  have h1 := tallyFold_repr sel games (initCounts players)
    (players.map Player.id) (fun _ => 0) hne hok h0
  have h2 : reprMap (tallyFrom games players sel) (players.map Player.id)
      (fun i => 0 + (games.map fun g =>
        ((sel g).filter fun t => decide (t.from_ = i)).length).sum) := by
    unfold tallyFrom
    exact h1
  refine reprMap_congr h2 fun i _ => ?_
  unfold fromCount
  omega

theorem find_player (players : List Player)
    (hnd : (players.map Player.id).Nodup) {p : Player} (hp : p ∈ players) :
    players.find? (fun q => decide (q.id = p.id)) = some p := by
  induction players with
  | nil => cases hp
  | cons r rest ih =>
    have hnd' : (r.id :: rest.map Player.id).Nodup := by simpa using hnd
    rcases List.nodup_cons.mp hnd' with ⟨hrn, hrest⟩
    rcases List.mem_cons.mp hp with rfl | hp'
    · simp [List.find?]
    · have hne : ¬(r.id = p.id) :=
        fun he => hrn (he ▸ List.mem_map.mpr ⟨p, hp', rfl⟩)
      rw [List.find?_cons_of_neg _ (by simpa using hne)]
      exact ih hrest hp'

theorem names_resolve (full : List Player)
    (hnd : (full.map Player.id).Nodup) (hnames : ∀ p ∈ full, p.name ≠ "")
    (q : String → Prop) [DecidablePred q] :
    ∀ sub : List Player, (∀ p ∈ sub, p ∈ full) →
      ((((sub.map Player.id).filter fun i => decide (q i)).filterMap fun i =>
          (full.find? fun p => decide (p.id = i)).map Player.name).filter
            fun n => decide (n ≠ ""))
        = (sub.filter fun p => decide (q p.id)).map Player.name := by
  intro sub
  induction sub with
  | nil => intro _; rfl
  | cons p rest ih =>
    intro hsub
    have hpfull := hsub p (List.mem_cons_self p rest)
    have hrest : ∀ r ∈ rest, r ∈ full :=
      fun r hr => hsub r (List.mem_cons_of_mem p hr)
    simp only [List.map_cons, List.filter_cons]
    by_cases hq : q p.id
    · rw [if_pos (by simpa using hq), if_pos (by simpa using hq)]
      simp only [List.filterMap_cons, find_player full hnd hpfull,
        Option.map_some']
      rw [List.filter_cons, if_pos (by simpa using hnames p hpfull)]
      rw [ih hrest]
      rfl
    · rw [if_neg (by simpa using hq), if_neg (by simpa using hq)]
      exact ih hrest

theorem filter_tab {α : Type} (ids : List String) (c : String → α)
    (pred : α → Bool) :
    ((ids.map fun i => (i, c i)).filter fun p => pred p.2)
      = (ids.filter fun i => pred (c i)).map fun i => (i, c i) := by
  induction ids with
  | nil => rfl
  | cons x xs ih =>
    simp only [List.map_cons, List.filter_cons]
    by_cases hx : pred (c x) = true
    · rw [if_pos hx, if_pos hx, ih]
      rfl
    · rw [if_neg hx, if_neg hx]
      exact ih

theorem topstat_general (games : List Game) (players : List Player)
    (sel : Game → List Transfer) (hids : validIds players)
    (hnames : ∀ p ∈ players, p.name ≠ "")
    (hok : ∀ g ∈ games, ∀ t ∈ sel g, t.from_ ∈ players.map Player.id) :
    ((∀ g ∈ games, sel g = []) →
      getTopStat players (tallyFrom games players sel)
        = ⟨["Chưa có"], 0⟩) ∧
    ((∃ g ∈ games, sel g ≠ []) →
      getTopStat players (tallyFrom games players sel)
        = ⟨(players.filter fun p => decide (fromCount games sel p.id
              = maxFromCount games players sel)).map Player.name,
            maxFromCount games players sel⟩ ∧
      (∀ p ∈ players, fromCount games sel p.id
        ≤ maxFromCount games players sel) ∧
      (∃ p ∈ players, fromCount games sel p.id
        = maxFromCount games players sel) ∧
      1 ≤ maxFromCount games players sel) := by
  have hnd := hids.2.1
  have htr := tallyFrom_repr games players sel hids
    (fun g hg t ht => Or.inr (hok g hg t ht))
  have hcounts : tallyFrom games players sel
      = (players.map Player.id).map fun i => (i, fromCount games sel i) := htr
  have hsnd : (tallyFrom games players sel).map Prod.snd
      = (players.map Player.id).map fun i => fromCount games sel i := by
    rw [hcounts, List.map_map]
    rfl
  have hMdef : maxFromCount games players sel
      = ((players.map Player.id).map
          fun i => fromCount games sel i).foldl Nat.max 0 := by
    unfold maxFromCount
    rw [List.map_map]
    rfl
  obtain ⟨hspec1, hspec2, hspec3⟩ := foldl_max_spec
    ((players.map Player.id).map fun i => fromCount games sel i) 0
  constructor
  · intro hall
    have hcnt0 : ∀ i, fromCount games sel i = 0 := by
      intro i
      unfold fromCount
      refine List.sum_eq_zero fun x hx => ?_
      rcases List.mem_map.mp hx with ⟨g, hg, hgx⟩
      rw [← hgx, hall g hg]
      rfl
    have hE : ((tallyFrom games players sel).map Prod.snd).foldl Nat.max 0
        = 0 := by
      rw [hsnd]
      refine foldl_max_zero fun x hx => ?_
      rcases List.mem_map.mp hx with ⟨i, _, hix⟩
      rw [← hix, hcnt0]
    simp only [getTopStat]
    rw [hE]
    simp
  · rintro ⟨g0, hg0, hne0⟩
    obtain ⟨t0, ht0⟩ := List.exists_mem_of_ne_nil (sel g0) hne0
    have h1le : 1 ≤ fromCount games sel t0.from_ := by
      unfold fromCount
      have hmem : ((sel g0).filter fun t =>
          decide (t.from_ = t0.from_)).length
          ∈ games.map fun g => ((sel g).filter fun t =>
              decide (t.from_ = t0.from_)).length :=
        List.mem_map.mpr ⟨g0, hg0, rfl⟩
      have hpos : 1 ≤ ((sel g0).filter fun t =>
          decide (t.from_ = t0.from_)).length := by
        have hin : t0 ∈ (sel g0).filter fun t => decide (t.from_ = t0.from_) :=
          List.mem_filter.mpr ⟨ht0, by simp⟩
        have := List.length_pos.mpr (List.ne_nil_of_mem hin)
        omega
      exact le_trans hpos
        (List.single_le_sum (fun x _ => Nat.zero_le x) _ hmem)
    have hfmem : fromCount games sel t0.from_
        ∈ (players.map Player.id).map fun i => fromCount games sel i :=
      List.mem_map.mpr ⟨t0.from_, hok g0 hg0 t0 ht0, rfl⟩
    have hM1 : 1 ≤ maxFromCount games players sel := by
      rw [hMdef]
      exact le_trans h1le (hspec2 _ hfmem)
    have hM0 : ¬(maxFromCount games players sel = 0) := by omega
    have hEM : ((tallyFrom games players sel).map Prod.snd).foldl Nat.max 0
        = maxFromCount games players sel := by
      rw [hsnd, hMdef]
    refine ⟨?_, ?_, ?_, hM1⟩
    · simp only [getTopStat]
      rw [hEM, if_neg hM0]
      congr 1
      rw [hcounts, filter_tab (players.map Player.id)
          (fun i => fromCount games sel i)
          (fun a => decide (a = maxFromCount games players sel)),
        List.map_map,
        show (Prod.fst ∘ fun i => (i, fromCount games sel i)) = id from rfl,
        List.map_id]
      exact names_resolve players hnd hnames
        (fun i => fromCount games sel i = maxFromCount games players sel)
        players (fun p hp => hp)
    · intro p hp
      rw [hMdef]
      exact hspec2 _
        (List.mem_map.mpr ⟨p.id, List.mem_map.mpr ⟨p, hp, rfl⟩, rfl⟩)
    · rcases hspec3 with he | hm
      · exact absurd (by rw [hMdef, he]) hM0
      · rcases List.mem_map.mp hm with ⟨i, hi, hieq⟩
        rcases List.mem_map.mp hi with ⟨p, hp, hpi⟩
        refine ⟨p, hp, ?_⟩
        rw [hpi, hMdef]
        exact hieq

/-! ### Key-presence: the engine never drops a player's entry -/

theorem keys_jsModify_superset {α : Type} (m : List (String × α)) (k' : String)
    (upd : α → α) (miss : α) {k : String} (h : k ∈ m.map Prod.fst) :
    k ∈ (jsModify m k' upd miss).map Prod.fst := by
  unfold jsModify
  split
  · rw [List.map_map]
    have he : m.map (Prod.fst ∘ fun p => if p.1 = k' then (p.1, upd p.2) else p)
        = m.map Prod.fst := by
      refine List.map_congr_left fun p _ => ?_
      by_cases hp : p.1 = k' <;> simp [hp]
    rw [he]
    exact h
  · rw [List.map_append]
    exact List.mem_append_left _ h

theorem keys_transFold (l : List Transfer) :
    ∀ (st : List (String × JsNum) × List String) {k : String},
      k ∈ st.1.map Prod.fst →
      k ∈ (l.foldl applyTransfer st).1.map Prod.fst := by
  induction l with
  | nil => intro st k h; exact h
  | cons t l ih =>
    intro st k h
    simp only [List.foldl_cons]
    refine ih _ ?_
    unfold applyTransfer
    split
    · exact h
    · exact keys_jsModify_superset _ _ _ _ (keys_jsModify_superset _ _ _ _ h)

theorem keys_selfWinFold (winner : String) (ps : List Player) :
    ∀ (m : List (String × JsNum)) {k : String},
      k ∈ m.map Prod.fst →
      k ∈ (ps.foldl
        (fun m p => setPts m p.id (if p.id = winner then 15 else -5))
          m).map Prod.fst := by
  induction ps with
  | nil => intro m k h; exact h
  | cons p ps ih =>
    intro m k h
    simp only [List.foldl_cons]
    exact ih _ (keys_jsModify_superset _ _ _ _ h)

theorem keys_burnFold (winner : String) (l : List String) :
    ∀ (m : List (String × JsNum)) {k : String},
      k ∈ m.map Prod.fst →
      k ∈ (l.foldl
        (fun m pid =>
          if pid = winner then m else updAdd (updSub m pid 4) winner 4)
          m).map Prod.fst := by
  induction l with
  | nil => intro m k h; exact h
  | cons x l ih =>
    intro m k h
    simp only [List.foldl_cons]
    refine ih _ ?_
    split
    · exact h
    · exact keys_jsModify_superset _ _ _ _ (keys_jsModify_superset _ _ _ _ h)

theorem keys_initPoints {players : List Player} {p : Player}
    (hp : p ∈ players) : p.id ∈ (initPoints players).map Prod.fst := by
  unfold initPoints
  rw [List.map_map]
  have he : (setDedup (players.map Player.id)).map
      (Prod.fst ∘ fun i => (i, (some 0 : JsNum)))
      = setDedup (players.map Player.id) := by
    rw [show (Prod.fst ∘ fun i => (i, (some 0 : JsNum))) = id from rfl]
    exact List.map_id _
  rw [he]
  exact mem_setDedup.mpr (List.mem_map.mpr ⟨p, hp, rfl⟩)

theorem keys_modePoints (game : Game) (players : List Player) {p : Player}
    (hp : p ∈ players) :
    p.id ∈ (modePoints game players).1.map Prod.fst := by
  have hinit : p.id ∈ (initPoints players).map Prod.fst := keys_initPoints hp
  unfold modePoints
  simp only []
  split
  · split
    · exact hinit
    · exact keys_selfWinFold _ _ _ hinit
  · split
    · split
      · exact hinit
      · exact keys_jsModify_superset _ _ _ _ (keys_jsModify_superset _ _ _ _
          (keys_jsModify_superset _ _ _ _ (keys_jsModify_superset _ _ _ _ hinit)))
    · split
      · exact hinit
      · split
        · exact hinit
        · have h1 := keys_burnFold game.placements.first (chayFroms game) _ hinit
          have h2 : p.id ∈ (if game.placements.second ≠ "" ∧
              game.placements.second ∉ chayFroms game ∧
              game.placements.second ≠ game.placements.first then
                updAdd (updSub ((chayFroms game).foldl
                  (fun m pid => if pid = game.placements.first then m
                    else updAdd (updSub m pid 4) game.placements.first 4)
                  (initPoints players)) game.placements.second 1)
                  game.placements.first 1
              else (chayFroms game).foldl
                  (fun m pid => if pid = game.placements.first then m
                    else updAdd (updSub m pid 4) game.placements.first 4)
                  (initPoints players)).map Prod.fst := by
            split
            · exact keys_jsModify_superset _ _ _ _
                (keys_jsModify_superset _ _ _ _ h1)
            · exact h1
          split
          · exact keys_jsModify_superset _ _ _ _
              (keys_jsModify_superset _ _ _ _ h2)
          · exact h2

/-! ### Claim theorems -/

/-- Claim C7: for every ordered list of rounds and every 4-player list, the
aggregator's per-player total is the `jsAdd`-sum over all rounds of that
round's delta for the player, and the grand total is the sum of all
players' totals. -/
theorem c7_aggregation (games : List Game) (players : List Player)
    (hids : validIds players) :
    (∀ p ∈ players,
      jsGet (sessionTotals games players) p.id
        = some ((games.map fun g =>
            getOrZero (computeGamePoints g players).points p.id).foldl
              jsAdd (some 0))) ∧
    sessionBalance games players
      = (players.map fun p =>
          getOrZero (sessionTotals games players) p.id).foldl
            jsAdd (some 0) := by
  have hnd := hids.2.1
  have hrep := sessionTotals_repr games players hnd
  constructor
  · intro p hp
    rw [jsGet_reprMap p.id (List.mem_map.mpr ⟨p, hp, rfl⟩) hrep]
  · unfold sessionBalance
    rw [sumVals_reprMap hrep]
    unfold jsSumOver
    rw [List.foldl_map, List.foldl_map]
    refine foldl_over_congr players _ _ (fun a p hp => ?_) (some 0)
    have hval : getOrZero (sessionTotals games players) p.id
        = (games.map fun g =>
            getOrZero (computeGamePoints g players).points p.id).foldl
              jsAdd (some 0) := by
      unfold getOrZero
      rw [jsGet_reprMap p.id (List.mem_map.mpr ⟨p, hp, rfl⟩) hrep]
      rfl
    rw [hval]

theorem c7_witness :
    jsGet (sessionTotals [roundRanked, roundSelfWin] samplePlayers) "p3"
        = some (some 13) ∧
    sessionBalance [roundRanked, roundSelfWin] samplePlayers = some 0 := by
  have h := c7_aggregation [roundRanked, roundSelfWin] samplePlayers
    (by decide)
  constructor
  · rw [h.1 ⟨"p3", "Chi"⟩ (by decide)]
    decide
  · rw [h.2]
    decide

/-- Claim C8: the top-burned and top-manually-transferred-from statistics
count, across all rounds, how many times each player appears as the `from`
side of a burn / manual transfer entry; the result lists every player tied
for the maximum count (no tie-breaking), and when no round has any such
entry the result is count 0 with the single sentinel label `"Chưa có"`
("none yet"). -/
theorem c8_top_stats (games : List Game) (players : List Player)
    (hids : validIds players) (hnames : ∀ p ∈ players, p.name ≠ "")
    (hchOk : ∀ g ∈ games, ∀ t ∈ g.chay, t.from_ ∈ players.map Player.id)
    (hanOk : ∀ g ∈ games, ∀ t ∈ g.anChot,
      t.from_ ∈ players.map Player.id) :
    ((∀ g ∈ games, g.chay = []) →
      mostChay games players = ⟨["Chưa có"], 0⟩) ∧
    ((∃ g ∈ games, g.chay ≠ []) →
      mostChay games players
        = ⟨(players.filter fun p => decide (fromCount games Game.chay p.id
              = maxFromCount games players Game.chay)).map Player.name,
            maxFromCount games players Game.chay⟩ ∧
      (∀ p ∈ players, fromCount games Game.chay p.id
        ≤ maxFromCount games players Game.chay) ∧
      (∃ p ∈ players, fromCount games Game.chay p.id
        = maxFromCount games players Game.chay) ∧
      1 ≤ maxFromCount games players Game.chay) ∧
    ((∀ g ∈ games, g.anChot = []) →
      mostAnChot games players = ⟨["Chưa có"], 0⟩) ∧
    ((∃ g ∈ games, g.anChot ≠ []) →
      mostAnChot games players
        = ⟨(players.filter fun p => decide (fromCount games Game.anChot p.id
              = maxFromCount games players Game.anChot)).map Player.name,
            maxFromCount games players Game.anChot⟩ ∧
      (∀ p ∈ players, fromCount games Game.anChot p.id
        ≤ maxFromCount games players Game.anChot) ∧
      (∃ p ∈ players, fromCount games Game.anChot p.id
        = maxFromCount games players Game.anChot) ∧
      1 ≤ maxFromCount games players Game.anChot) := by
  have hc := topstat_general games players Game.chay hids hnames hchOk
  have ha := topstat_general games players Game.anChot hids hnames hanOk
  exact ⟨hc.1, hc.2, ha.1, ha.2⟩

theorem c8_witness :
    mostChay [roundBurn, roundBurnTwo] samplePlayers = ⟨["Bình"], 2⟩ ∧
    mostAnChot [roundBurn, roundBurnTwo] samplePlayers = ⟨["Chưa có"], 0⟩ := by
  have h := c8_top_stats [roundBurn, roundBurnTwo] samplePlayers (by decide)
    (by decide) (by decide) (by decide)
  constructor
  · have h2 := h.2.1 ⟨roundBurn, by simp, by decide⟩
    rw [h2.1]
    decide
  · exact h.2.2.1 (by decide)

/-- Claim C9, counterexample: the round `roundSelfWinWithBurn` violates the
section-3 data model (self-win with a non-empty burn list), yet
`computeGamePoints` returns an empty warnings list, so "whenever the input
is malformed the returned warnings list is non-empty" is false. -/
theorem c9_counterexample :
    ¬ sectionThreeValid roundSelfWinWithBurn samplePlayers ∧
    (computeGamePoints roundSelfWinWithBurn samplePlayers).warnings = [] := by
  constructor
  · decide
  · rfl

/-- Claim C9 (amended): `computeGamePoints` is a total function — on every
input, however malformed, it returns a well-typed `ScoreResult` whose
`points` map contains an entry for every player; warnings, however, may be
empty even for inputs violating the section-3 invariants. -/
theorem c9_total_wellTyped (game : Game) (players : List Player) (p : Player)
    (hp : p ∈ players) :
    p.id ∈ (computeGamePoints game players).points.map Prod.fst := by
  show p.id ∈
    (game.anChot.foldl applyTransfer (modePoints game players)).1.map Prod.fst
  exact keys_transFold _ _ (keys_modePoints game players hp)

theorem c9_witness :
    (⟨"p1", "An"⟩ : Player) ∈ samplePlayers ∧
    "p1" ∈ (computeGamePoints roundSelfWinWithBurn samplePlayers).points.map
      Prod.fst :=
  ⟨by decide,
    c9_total_wellTyped roundSelfWinWithBurn samplePlayers ⟨"p1", "An"⟩
      (by decide)⟩

/-- Claim C10: two rounds identical except in the `to` and/or `points`
fields of their burn (`chay`) entries score identically — burn scoring
reads only each burn entry's `from` field, so stale `to`/`points` data on a
burn entry never affects the deltas, total, or warnings. -/
theorem c10_burn_to_irrelevant (players : List Player) (g g' : Game)
    (_hid : g.id = g'.id) (hu : g.u = g'.u)
    (hpl : g.placements = g'.placements) (han : g.anChot = g'.anChot)
    (hch : List.Forall₂ (fun s t => s.id = t.id ∧ s.from_ = t.from_)
      g.chay g'.chay) :
    computeGamePoints g players = computeGamePoints g' players := by
  have hgen : ∀ (l l' : List Transfer),
      List.Forall₂ (fun s t => s.id = t.id ∧ s.from_ = t.from_) l l' →
      l.map Transfer.from_ = l'.map Transfer.from_ := by
    intro l l' h
    induction h with
    | nil => rfl
    | cons h _ ih => simp [List.map_cons, h.2, ih]
  have hfrom : g.chay.map Transfer.from_ = g'.chay.map Transfer.from_ :=
    hgen _ _ hch
  have hcf : chayFroms g = chayFroms g' := by
    unfold chayFroms
    rw [hfrom]
  have hmp : modePoints g players = modePoints g' players := by
    unfold modePoints
    rw [hu, hpl, hcf]
  unfold computeGamePoints
  rw [hmp, han]

theorem c10_witness :
    computeGamePoints roundBurn samplePlayers
      = computeGamePoints roundBurnStale samplePlayers :=
  c10_burn_to_irrelevant samplePlayers roundBurn roundBurnStale rfl rfl rfl rfl
    (List.Forall₂.cons ⟨rfl, rfl⟩ List.Forall₂.nil)

/-- Claim C3: in self-win mode with a winner W set in slot `first`, the
deltas before manual transfers are exactly +15 for W and −5 for each of the
other three players. -/
theorem c3_self_win (game : Game) (players : List Player)
    (hids : validIds players) (hu : game.u = true)
    (hW : game.placements.first ∈ players.map Player.id) :
    ∀ p ∈ players,
      jsGet (modePoints game players).1 p.id
        = some (if p.id = game.placements.first
            then some 15 else some (-5)) := by
  intro p hp
  obtain ⟨hlen, hnd, hne⟩ := hids
  obtain ⟨gid, gu, gpl, gan, gch⟩ := game
  obtain ⟨pf, psec, pth, pfo⟩ := gpl
  simp only at hu hW ⊢
  subst hu
  have hWne : pf ≠ "" := by
    rcases List.mem_map.mp hW with ⟨q, hq, hqid⟩
    rw [← hqid]
    exact hne q hq
  have h0 : reprMap (initPoints players) (players.map Player.id)
      (fun _ => some 0) := by
    unfold reprMap initPoints
    rw [setDedup_eq_self hnd]
  have hfold := selfWinFold_reprMap pf players _ (players.map Player.id) _
    (fun q hq => List.mem_map.mpr ⟨q, hq, rfl⟩) h0
  have hmp : modePoints ⟨gid, true, ⟨pf, psec, pth, pfo⟩, gan, gch⟩ players
      = (players.foldl
          (fun m q => setPts m q.id (if q.id = pf then 15 else -5))
          (initPoints players), []) := by
    unfold modePoints
    simp [hWne]
  rw [hmp]
  rw [jsGet_reprMap p.id (List.mem_map.mpr ⟨p, hp, rfl⟩) hfold]
  have hpm : p.id ∈ players.map Player.id := List.mem_map.mpr ⟨p, hp, rfl⟩
  rw [if_pos hpm]

theorem c3_witness :
    validIds samplePlayers ∧
    jsGet (modePoints roundSelfWin samplePlayers).1 "p3" = some (some 15) := by
  refine ⟨by decide, ?_⟩
  have h := c3_self_win roundSelfWin samplePlayers (by decide) rfl (by decide)
    ⟨"p3", "Chi"⟩ (by decide)
  simpa using h

/-- Claim C4: in ranking mode (no self-win, no burn entries) with no manual
transfers: if the four slots hold four distinct player ids the deltas are
+6 / −1 / −2 / −3 for first..fourth with total 0 and no warnings; otherwise
the "ranking incomplete" warning is emitted and the mode-specific deltas
stay 0. -/
theorem c4_ranking (game : Game) (players : List Player)
    (hids : validIds players) (hpl : placementsOk players game)
    (hu : game.u = false) (hch : game.chay = []) (han : game.anChot = []) :
    (rankingComplete game →
      (∀ p ∈ players,
        jsGet (computeGamePoints game players).points p.id
          = some (if p.id = game.placements.first then some 6
            else if p.id = game.placements.second then some (-1)
            else if p.id = game.placements.third then some (-2)
            else if p.id = game.placements.fourth then some (-3)
            else some 0)) ∧
      (computeGamePoints game players).total = some 0 ∧
      (computeGamePoints game players).warnings = []) ∧
    (¬ rankingComplete game →
      modePoints game players
        = (initPoints players, ["Chưa đủ xếp hạng 1-4"])) := by
  have hcf : chayFroms game = [] := by
    unfold chayFroms
    rw [hch]
    rfl
  have hmr := modePoints_rank game players hu hcf
  have hcp : computeGamePoints game players
      = ⟨(modePoints game players).1, sumVals (modePoints game players).1,
          (modePoints game players).2⟩ := by
    unfold computeGamePoints
    rw [han]
    rfl
  constructor
  · intro hrc
    obtain ⟨hne1, hne2, hne3, hne4, hd1, hd2, hd3, hd4, hd5, hd6⟩ := hrc
    have hlen4 := (rank_unique_iff game.placements.first
      game.placements.second game.placements.third game.placements.fourth).mpr
      ⟨hne1, hne2, hne3, hne4, hd1, hd2, hd3, hd4, hd5, hd6⟩
    rw [if_neg (by simpa using hlen4)] at hmr
    obtain ⟨hlen, hnd, hnempty⟩ := hids
    obtain ⟨hpf, hps, hpt, hpfo⟩ := hpl
    have hf : game.placements.first ∈ players.map Player.id := by
      rcases hpf with he | hm
      · exact absurd he hne1
      · exact hm
    have hs : game.placements.second ∈ players.map Player.id := by
      rcases hps with he | hm
      · exact absurd he hne2
      · exact hm
    have ht : game.placements.third ∈ players.map Player.id := by
      rcases hpt with he | hm
      · exact absurd he hne3
      · exact hm
    have hfo : game.placements.fourth ∈ players.map Player.id := by
      rcases hpfo with he | hm
      · exact absurd he hne4
      · exact hm
    have h0 : reprMap (initPoints players) (players.map Player.id)
        (fun _ => some 0) := by
      unfold reprMap initPoints
      rw [setDedup_eq_self hnd]
    have h1 := updAdd_reprMap game.placements.first 6 hf h0
    have h2 := updSub_reprMap game.placements.second 1 hs h1
    have h3 := updSub_reprMap game.placements.third 2 ht h2
    have h4 := updSub_reprMap game.placements.fourth 3 hfo h3
    have h4' : reprMap (updSub (updSub (updSub (updAdd (initPoints players)
        game.placements.first 6) game.placements.second 1)
        game.placements.third 2) game.placements.fourth 3)
        (players.map Player.id)
        (fun i => if i = game.placements.first then some 6
          else if i = game.placements.second then some (-1)
          else if i = game.placements.third then some (-2)
          else if i = game.placements.fourth then some (-3)
          else some 0) := by
      refine reprMap_congr h4 fun i _ => ?_
      by_cases hif : i = game.placements.first
      · simp [hif, hd1, hd2, hd3, jsAdd]
      · by_cases his : i = game.placements.second
        · simp [hif, his, Ne.symm hd1, hd4, hd5, jsAdd]
        · by_cases hit : i = game.placements.third
          · simp [hif, his, hit, Ne.symm hd2, Ne.symm hd4, hd6, jsAdd]
          · by_cases hifo : i = game.placements.fourth
            · simp [hif, his, hit, hifo, Ne.symm hd3, Ne.symm hd5,
                Ne.symm hd6, jsAdd]
            · simp [hif, his, hit, hifo]
    have hpts : (computeGamePoints game players).points
        = updSub (updSub (updSub (updAdd (initPoints players)
            game.placements.first 6) game.placements.second 1)
            game.placements.third 2) game.placements.fourth 3 := by
      rw [hcp, hmr]
    have hwarn : (computeGamePoints game players).warnings = [] := by
      rw [hcp, hmr]
    refine ⟨?_, ?_, hwarn⟩
    · intro p hp
      rw [hpts, jsGet_reprMap p.id (List.mem_map.mpr ⟨p, hp, rfl⟩) h4']
    · refine total_zero_core game players ⟨hlen, hnd, hnempty⟩
        ⟨hpf, hps, hpt, hpfo⟩ ⟨?_, ?_⟩ hwarn
      · intro t htc
        rw [hch] at htc
        cases htc
      · intro t hta
        rw [han] at hta
        cases hta
  · intro hnrc
    have hlen4 : (setDedup ([game.placements.first, game.placements.second,
        game.placements.third, game.placements.fourth].filter
          fun x => decide (x ≠ ""))).length ≠ 4 :=
      fun h4 => hnrc ((rank_unique_iff _ _ _ _).mp h4)
    rw [if_pos hlen4] at hmr
    exact hmr

theorem c4_witness :
    jsGet (computeGamePoints roundRanked samplePlayers).points "p1"
        = some (some 6) ∧
    jsGet (computeGamePoints roundRanked samplePlayers).points "p4"
        = some (some (-3)) ∧
    (computeGamePoints roundRanked samplePlayers).total = some 0 ∧
    (computeGamePoints roundRanked samplePlayers).warnings = [] ∧
    modePoints roundIncomplete samplePlayers
        = (initPoints samplePlayers, ["Chưa đủ xếp hạng 1-4"]) := by
  have hA := (c4_ranking roundRanked samplePlayers (by decide) (by decide)
    rfl rfl rfl).1 (by decide)
  have hB := (c4_ranking roundIncomplete samplePlayers (by decide) (by decide)
    rfl rfl rfl).2 (by decide)
  refine ⟨?_, ?_, hA.2.1, hA.2.2, hB⟩
  · rw [hA.1 ⟨"p1", "An"⟩ (by decide)]
    decide
  · rw [hA.1 ⟨"p4", "Dũng"⟩ (by decide)]
    decide

/-- Claim C5, counterexample: in `roundBurnTwo` (winner `p1`, burned
`{p2, p3}`, slot `second` empty) only one non-burned, non-winner player
exists, so the claim as stated predicts no "missing second place" warning —
yet the engine emits it (the source counts non-burned players including
the winner: `nonChay.length >= 2`). -/
theorem c5_counterexample :
    "Thiếu người về nhì" ∈
      (computeGamePoints roundBurnTwo samplePlayers).warnings ∧
    ((samplePlayers.map Player.id).filter fun i =>
        decide (i ∉ chayFroms roundBurnTwo ∧
          i ≠ roundBurnTwo.placements.first)).length < 2 := by
  decide

/-- Claim C5 (amended): in burn mode with a non-burned winner, "missing
second place" is emitted exactly when at least 2 non-burned players exist
(the winner included) and slot `second` is missing or invalid; "missing
third place" exactly when at least 3 non-burned players exist and slot
`third` is missing or invalid. -/
theorem c5_completeness_warnings (game : Game) (players : List Player)
    (hu : game.u = false) (hne : chayFroms game ≠ [])
    (hWne : game.placements.first ≠ "")
    (hWnb : game.placements.first ∉ chayFroms game) :
    ("Thiếu người về nhì" ∈ (computeGamePoints game players).warnings ↔
      (2 ≤ (burnNonChay game players).length ∧
        (game.placements.second = "" ∨
         game.placements.second = game.placements.first ∨
         game.placements.second ∈ chayFroms game))) ∧
    ("Thiếu người về ba" ∈ (computeGamePoints game players).warnings ↔
      (3 ≤ (burnNonChay game players).length ∧
        (game.placements.third = "" ∨
         game.placements.third = game.placements.first ∨
         game.placements.third = game.placements.second ∨
         game.placements.third ∈ chayFroms game))) := by
  obtain ⟨extra, hE1, hE2, _⟩ := transWarnings game.anChot
    (burnPts game players) (burnWarns game players)
  have hwr : (computeGamePoints game players).warnings
      = burnWarns game players ++ extra := by
    have h0 : (computeGamePoints game players).warnings
        = (game.anChot.foldl applyTransfer (modePoints game players)).2 := rfl
    rw [h0, modePoints_burn game players hu hne hWne hWnb]
    exact hE1
  constructor
  · rw [hwr]
    simp only [List.mem_append]
    constructor
    · rintro (h | h)
      · unfold burnWarns at h
        simp only [List.mem_append] at h
        rcases h with h | h
        · by_cases hc : 2 ≤ (burnNonChay game players).length ∧
              (game.placements.second = "" ∨
               game.placements.second = game.placements.first ∨
               game.placements.second ∈ chayFroms game)
          · exact hc
          · rw [if_neg hc] at h
            cases h
        · by_cases hc : 3 ≤ (burnNonChay game players).length ∧
              (game.placements.third = "" ∨
               game.placements.third = game.placements.first ∨
               game.placements.third = game.placements.second ∨
               game.placements.third ∈ chayFroms game)
          · rw [if_pos hc] at h
            simp only [List.mem_singleton] at h
            exact absurd h (by decide)
          · rw [if_neg hc] at h
            cases h
      · exact absurd (hE2 _ h) (by decide)
    · intro hc
      left
      unfold burnWarns
      refine List.mem_append_left _ ?_
      rw [if_pos hc]
      simp
  · rw [hwr]
    simp only [List.mem_append]
    constructor
    · rintro (h | h)
      · unfold burnWarns at h
        simp only [List.mem_append] at h
        rcases h with h | h
        · by_cases hc : 2 ≤ (burnNonChay game players).length ∧
              (game.placements.second = "" ∨
               game.placements.second = game.placements.first ∨
               game.placements.second ∈ chayFroms game)
          · rw [if_pos hc] at h
            simp only [List.mem_singleton] at h
            exact absurd h (by decide)
          · rw [if_neg hc] at h
            cases h
        · by_cases hc : 3 ≤ (burnNonChay game players).length ∧
              (game.placements.third = "" ∨
               game.placements.third = game.placements.first ∨
               game.placements.third = game.placements.second ∨
               game.placements.third ∈ chayFroms game)
          · exact hc
          · rw [if_neg hc] at h
            cases h
      · exact absurd (hE2 _ h) (by decide)
    · intro hc
      left
      unfold burnWarns
      refine List.mem_append_right _ ?_
      rw [if_pos hc]
      simp

theorem c5_witness :
    "Thiếu người về nhì" ∈
      (computeGamePoints roundBurnTwo samplePlayers).warnings ∧
    "Thiếu người về ba" ∉
      (computeGamePoints roundBurnTwo samplePlayers).warnings := by
  have h := c5_completeness_warnings roundBurnTwo samplePlayers rfl
    (by decide) (by decide) (by decide)
  refine ⟨h.1.mpr (by decide), fun hm => ?_⟩
  exact absurd (h.2.mp hm).1 (by decide)

/-- Claim C6: manual transfers are processed in list order after the
mode-specific computation; a transfer with `from = to` or an empty endpoint
leaves the points unchanged and appends exactly one "invalid transfer"
warning, and any other transfer subtracts its amount from `from`'s delta
and adds it to `to`'s delta, leaving all other deltas and the warnings
unchanged. -/
theorem c6_manual_transfers (game : Game) (players : List Player)
    (pts : List (String × JsNum)) (ws : List String) (t : Transfer)
    (ids : List String) (g : String → JsNum) :
    (computeGamePoints game players).points
        = (game.anChot.foldl applyTransfer (modePoints game players)).1 ∧
    (computeGamePoints game players).warnings
        = (game.anChot.foldl applyTransfer (modePoints game players)).2 ∧
    ((t.from_ = "" ∨ t.to_ = "" ∨ t.from_ = t.to_) →
      applyTransfer (pts, ws) t = (pts, ws ++ ["Chuyển điểm chưa hợp lệ"])) ∧
    (¬(t.from_ = "" ∨ t.to_ = "" ∨ t.from_ = t.to_) →
      reprMap pts ids g → t.from_ ∈ ids → t.to_ ∈ ids →
      jsGet (applyTransfer (pts, ws) t).1 t.from_
          = some (jsAdd (g t.from_) (some (-t.points))) ∧
      jsGet (applyTransfer (pts, ws) t).1 t.to_
          = some (jsAdd (g t.to_) (some t.points)) ∧
      (∀ i ∈ ids, i ≠ t.from_ → i ≠ t.to_ →
        jsGet (applyTransfer (pts, ws) t).1 i = some (g i)) ∧
      (applyTransfer (pts, ws) t).2 = ws) := by
  refine ⟨rfl, rfl, ?_, ?_⟩
  · intro hv
    unfold applyTransfer
    rw [if_pos hv]
  · intro hv hrep hf ht
    have hft : t.from_ ≠ t.to_ := fun he => hv (Or.inr (Or.inr he))
    have hres : applyTransfer (pts, ws) t
        = (updAdd (updSub pts t.from_ t.points) t.to_ t.points, ws) := by
      unfold applyTransfer
      rw [if_neg hv]
    rw [hres]
    have hA := updSub_reprMap t.from_ t.points hf hrep
    have hB := updAdd_reprMap t.to_ t.points ht hA
    refine ⟨?_, ?_, ?_, rfl⟩
    · rw [jsGet_reprMap t.from_ hf hB]
      simp [hft, Ne.symm hft]
    · rw [jsGet_reprMap t.to_ ht hB]
      simp [Ne.symm hft]
    · intro i hi hif hit
      rw [jsGet_reprMap i hi hB]
      simp [hif, hit]

/-- Claim C1: for every round and 4-player list satisfying the §3 data-model
invariants (ranking slots and transfer endpoints are valid player ids or
empty), if `computeGamePoints` returns an empty warnings list then the
returned total — the sum of all per-player deltas — is 0. -/
theorem c1_zero_sum (game : Game) (players : List Player)
    (hids : validIds players) (hpl : placementsOk players game)
    (hep : endpointsOk players game)
    (hw : (computeGamePoints game players).warnings = []) :
    (computeGamePoints game players).total = some 0 :=
  total_zero_core game players hids hpl hep hw

theorem c1_witness :
    (computeGamePoints roundRanked samplePlayers).warnings = [] ∧
    (computeGamePoints roundRanked samplePlayers).total = some 0 :=
  ⟨by decide,
    c1_zero_sum roundRanked samplePlayers (by decide) (by decide) (by decide)
      (by decide)⟩

/-- Claim C2: in burn mode (no self-win, at least one burn) with a
non-burned winner in slot `first`, the mode-specific deltas before manual
transfers are: the winner gains 4 per distinct burned player plus the
second-place bonus 1 (when `second` is set, not burned, not the winner) and
the third-place bonus 2 (when `third` is set, not burned, not the winner,
not equal to `second`); each distinct burned player loses 4; a valid
`second` loses 1; a valid `third` loses 2; everyone else is unchanged. -/
theorem c2_burn_deltas (game : Game) (players : List Player)
    (hids : validIds players) (hu : game.u = false)
    (hne : chayFroms game ≠ [])
    (hW : game.placements.first ∈ players.map Player.id)
    (hWnb : game.placements.first ∉ chayFroms game)
    (hsecOk : slotOk players game.placements.second)
    (hthdOk : slotOk players game.placements.third)
    (hchOk : ∀ t ∈ game.chay, slotOk players t.from_) :
    ∀ p ∈ players,
      jsGet (modePoints game players).1 p.id
        = some (if p.id = game.placements.first
            then some (4 * ((chayFroms game).length : Int)
              + (if secondBonusOK game then 1 else 0)
              + (if thirdBonusOK game then 2 else 0))
          else if p.id ∈ chayFroms game then some (-4)
          else if p.id = game.placements.second ∧ secondBonusOK game
            then some (-1)
          else if p.id = game.placements.third ∧ thirdBonusOK game
            then some (-2)
          else some 0) := by
  intro p hp
  obtain ⟨hlen, hnd, hnempty⟩ := hids
  have hWne : game.placements.first ≠ "" := by
    rcases List.mem_map.mp hW with ⟨q, hq, hqid⟩
    rw [← hqid]
    exact hnempty q hq
  have hchsub : ∀ x ∈ chayFroms game, x ∈ players.map Player.id := by
    intro x hx
    have hx' := mem_setDedup.mp hx
    rcases List.mem_filter.mp hx' with ⟨hmem, hdec⟩
    have hxne : x ≠ "" := by simpa using hdec
    rcases List.mem_map.mp hmem with ⟨t, ht, htx⟩
    rcases hchOk t ht with he | hm
    · exact absurd (htx ▸ he) hxne
    · exact htx ▸ hm
  have hchnd : (chayFroms game).Nodup := by
    unfold chayFroms
    exact setDedup_nodup _
  have h0 : reprMap (initPoints players) (players.map Player.id)
      (fun _ => some 0) := by
    unfold reprMap initPoints
    rw [setDedup_eq_self hnd]
  have hfold := burnFold_reprMap game.placements.first (chayFroms game)
    (initPoints players) (players.map Player.id) (fun _ => some 0)
    hchnd hWnb hchsub hW h0
  have h1 : reprMap (burnPts1 game players) (players.map Player.id)
      (fun i => if i = game.placements.first
        then some (4 * ((chayFroms game).length : Int))
        else if i ∈ chayFroms game then some (-4) else some 0) := by
    unfold burnPts1
    refine reprMap_congr hfold fun i _ => ?_
    by_cases hiw : i = game.placements.first
    · simp [hiw, jsAdd]
    · by_cases hic : i ∈ chayFroms game <;> simp [hiw, hic, jsAdd]
  have h2 : reprMap (burnPts2 game players) (players.map Player.id)
      (fun i => if i = game.placements.first
        then some (4 * ((chayFroms game).length : Int)
          + (if secondBonusOK game then 1 else 0))
        else if i ∈ chayFroms game then some (-4)
        else if i = game.placements.second ∧ secondBonusOK game
          then some (-1)
        else some 0) := by
    unfold burnPts2
    by_cases hsB : secondBonusOK game
    · obtain ⟨hs1, hs2, hs3⟩ := hsB
      have hsB' : secondBonusOK game := ⟨hs1, hs2, hs3⟩
      rw [if_pos hsB']
      have hsmem : game.placements.second ∈ players.map Player.id := by
        rcases hsecOk with he | hm
        · exact absurd he hs1
        · exact hm
      have hA := updSub_reprMap game.placements.second 1 hsmem h1
      have hB := updAdd_reprMap game.placements.first 1 hW hA
      refine reprMap_congr hB fun i _ => ?_
      by_cases hiw : i = game.placements.first
      · simp [hiw, Ne.symm hs3, hsB', jsAdd]
      · by_cases hic : i ∈ chayFroms game
        · have his : i ≠ game.placements.second := fun he => hs2 (he ▸ hic)
          simp [hiw, hic, his]
        · by_cases his : i = game.placements.second
          · simp [hiw, hic, his, hsB', jsAdd]
          · simp [hiw, hic, his]
    · rw [if_neg hsB]
      refine reprMap_congr h1 fun i _ => ?_
      by_cases hiw : i = game.placements.first
      · simp [hiw, hsB]
      · by_cases hic : i ∈ chayFroms game <;> simp [hiw, hic, hsB]
  have h3 : reprMap (burnPts game players) (players.map Player.id)
      (fun i => if i = game.placements.first
        then some (4 * ((chayFroms game).length : Int)
          + (if secondBonusOK game then 1 else 0)
          + (if thirdBonusOK game then 2 else 0))
        else if i ∈ chayFroms game then some (-4)
        else if i = game.placements.second ∧ secondBonusOK game
          then some (-1)
        else if i = game.placements.third ∧ thirdBonusOK game
          then some (-2)
        else some 0) := by
    unfold burnPts
    by_cases htB : thirdBonusOK game
    · obtain ⟨ht1, ht2, ht3, ht4⟩ := htB
      have htB' : thirdBonusOK game := ⟨ht1, ht2, ht3, ht4⟩
      rw [if_pos htB']
      have htmem : game.placements.third ∈ players.map Player.id := by
        rcases hthdOk with he | hm
        · exact absurd he ht1
        · exact hm
      have hA := updSub_reprMap game.placements.third 2 htmem h2
      have hB := updAdd_reprMap game.placements.first 2 hW hA
      refine reprMap_congr hB fun i _ => ?_
      by_cases hiw : i = game.placements.first
      · simp [hiw, Ne.symm ht3, htB', jsAdd]
      · by_cases hic : i ∈ chayFroms game
        · have hit : i ≠ game.placements.third := fun he => ht2 (he ▸ hic)
          simp [hiw, hic, hit]
        · by_cases his : i = game.placements.second ∧ secondBonusOK game
          · have hit : i ≠ game.placements.third := by
              intro he
              exact ht4 (he ▸ his.1)
            have hst : game.placements.second ≠ game.placements.third :=
              fun he => hit (his.1.trans he)
            simp [hiw, hic, his, hit, his.2, hst]
          · by_cases hit : i = game.placements.third
            · simp [hiw, hic, his, hit, htB', jsAdd]
            · simp [hiw, hic, his, hit]
    · rw [if_neg htB]
      refine reprMap_congr h2 fun i _ => ?_
      by_cases hiw : i = game.placements.first
      · simp [hiw, htB]
      · by_cases hic : i ∈ chayFroms game
        · simp [hiw, hic]
        · by_cases his : i = game.placements.second ∧ secondBonusOK game <;>
            simp [hiw, hic, his, htB]
  rw [modePoints_burn game players hu hne hWne hWnb]
  show jsGet (burnPts game players) p.id = _
  rw [jsGet_reprMap p.id (List.mem_map.mpr ⟨p, hp, rfl⟩) h3]

theorem c2_witness :
    jsGet (modePoints roundBurn samplePlayers).1 "p1" = some (some 7) ∧
    jsGet (modePoints roundBurn samplePlayers).1 "p2" = some (some (-4)) ∧
    jsGet (modePoints roundBurn samplePlayers).1 "p3" = some (some (-1)) ∧
    jsGet (modePoints roundBurn samplePlayers).1 "p4" = some (some (-2)) := by
  have h := c2_burn_deltas roundBurn samplePlayers (by decide) rfl (by decide)
    (by decide) (by decide) (by decide) (by decide) (by decide)
  refine ⟨?_, ?_, ?_, ?_⟩
  · rw [h ⟨"p1", "An"⟩ (by decide)]
    decide
  · rw [h ⟨"p2", "Bình"⟩ (by decide)]
    decide
  · rw [h ⟨"p3", "Chi"⟩ (by decide)]
    decide
  · rw [h ⟨"p4", "Dũng"⟩ (by decide)]
    decide

theorem c6_witness :
    applyTransfer (initPoints samplePlayers, []) ⟨"a1", "p2", "p2", 3⟩
        = (initPoints samplePlayers, ["Chuyển điểm chưa hợp lệ"]) ∧
    jsGet (applyTransfer (initPoints samplePlayers, [])
        ⟨"a2", "p2", "p3", 3⟩).1 "p2" = some (some (-3)) := by
  constructor
  · exact (c6_manual_transfers roundRanked samplePlayers
      (initPoints samplePlayers) [] ⟨"a1", "p2", "p2", 3⟩
      ["p1", "p2", "p3", "p4"] (fun _ => some 0)).2.2.1 (by decide)
  · have h := (c6_manual_transfers roundRanked samplePlayers
      (initPoints samplePlayers) [] ⟨"a2", "p2", "p3", 3⟩
      ["p1", "p2", "p3", "p4"] (fun _ => some 0)).2.2.2
      (by decide) (by unfold reprMap; rfl) (by decide) (by decide)
    simpa [jsAdd] using h.1

end Phom
